import Mathlib

/-!
# The filtering directory-tree iterator of `src/main.cpp`

A shallow embedding of `should_skip`, `expand_path`, `apply_changes`, `next` and
the five other operations of the iterator (`src/main.cpp`, lines 22-262) and of
`parse_fstree_defaults` (`src/sqfs-simple-writer.c`, lines 31-119), followed by
their properties.

Conventions of the embedding.

* Machine integers are `Nat` (unsigned fields) and `Int` (`int`, `sqfs_s64`).
  A flag test `x & FLAG` is `x &&& FLAG ≠ 0`.
* A C string is the list of the bytes that precede its final terminator; the
  functions of `<string.h>` see it up to its first NUL byte (`cstr`).
* Everything behind the pointer `it->rec` and the allocator is the *world*: a
  state of an arbitrary type `ω` with the operations collected in `Env ω`.
  `next` passes the world explicitly and records, in order, the calls it makes
  on the underlying iterator.
* The two back edges of `next` (the `for (;;)` loop and `goto retry`) are the
  recursive calls of `next_loop`, which is bounded by a fuel argument.
-/

namespace DirTree

/-! ## Constants -/

def DIR_SCAN_NO_SOCK : Nat := 0x0001
def DIR_SCAN_NO_SLINK : Nat := 0x0002
def DIR_SCAN_NO_FILE : Nat := 0x0004
def DIR_SCAN_NO_BLK : Nat := 0x0008
def DIR_SCAN_NO_DIR : Nat := 0x0010
def DIR_SCAN_NO_CHR : Nat := 0x0020
def DIR_SCAN_NO_FIFO : Nat := 0x0040
def DIR_SCAN_KEEP_TIME : Nat := 0x0100
def DIR_SCAN_KEEP_UID : Nat := 0x0200
def DIR_SCAN_KEEP_GID : Nat := 0x0400
def DIR_SCAN_KEEP_MODE : Nat := 0x0800
def DIR_SCAN_ONE_FILESYSTEM : Nat := 0x1000
def DIR_SCAN_NO_RECURSION : Nat := 0x2000
def DIR_SCAN_MATCH_FULL_PATH : Nat := 0x4000

/-- Modelled from the spec: the file-type field of `mode` ("type+permission
bits"); `S_IFMT` and the seven type tags are the values of `<sys/stat.h>`, which
is not part of the sources. -/
def S_IFMT : Nat := 0o170000
def S_IFSOCK : Nat := 0o140000
def S_IFLNK : Nat := 0o120000
def S_IFREG : Nat := 0o100000
def S_IFBLK : Nat := 0o060000
def S_IFDIR : Nat := 0o040000
def S_IFCHR : Nat := 0o020000
def S_IFIFO : Nat := 0o010000

/-- Modelled from the spec: the "this is a filesystem mount point" marker of the
flags field of an entry (`sqfs/dir_entry.h`, not part of the sources). -/
def SQFS_DIR_ENTRY_FLAG_MOUNT_POINT : Nat := 0x0001

/-- Modelled from the spec: the "canonical out-of-memory condition"
(`sqfs/error.h`, not part of the sources); a negative status. -/
def SQFS_ERROR_ALLOC : Int := -1

/-- Modelled from the spec: "path delimiters are never matched by a wildcard"
(`FNM_PATHNAME` of `<fnmatch.h>`). -/
def FNM_PATHNAME : Nat := 1

/-- Modelled from the spec: the non-zero result of a failed glob match
(`FNM_NOMATCH` of `<fnmatch.h>`). -/
def FNM_NOMATCH : Int := 1

/-- The macro `S_ISDIR(m)` of `<sys/stat.h>`: `(m & S_IFMT) == S_IFDIR`. -/
def S_ISDIR (m : Nat) : Bool := (m &&& S_IFMT) == S_IFDIR

/-- The C expression `x & ~m` on an unsigned value: the bits of `x` outside `m`,
whatever the width of `x`. -/
def and_not (x m : Nat) : Nat := x ^^^ (x &&& m)

/-! ## Data model -/

/-- Modelled from the spec: the directory entry ("name/path (variable length),
type+permission bits, owning user id, owning group id, modification time, and a
flags field"); `size`, `dev` and `rdev` stand for the remaining fields of
`sqfs_dir_entry_t`, whose declaration is not part of the sources.  `name` is the
flexible array member, without its final terminator. -/
structure sqfs_dir_entry_t where
  size : Nat
  mtime : Int
  dev : Nat
  rdev : Nat
  uid : Nat
  gid : Nat
  mode : Nat
  flags : Nat
  name : List Char
deriving DecidableEq, Repr

/-- The policy `dir_tree_cfg_t`; `none` is the NULL pointer. -/
structure dir_tree_cfg_t where
  flags : Nat
  def_uid : Nat
  def_gid : Nat
  def_mode : Nat
  def_mtime : Int
  pfx : Option (List Char)
  name_pattern : Option (List Char)
deriving DecidableEq, Repr

/-- The fields of `dir_tree_iterator_t` that `next` reads and writes.  The
pointer `rec` never changes; the object behind it is part of the world. -/
structure dir_tree_iterator_t where
  cfg : dir_tree_cfg_t
  state : Int
deriving DecidableEq, Repr

/-- What `rec->next(rec, &ent)` gives back: status 0 together with an entry, or
a non-zero status (positive: exhausted, negative: error) and no entry. -/
inductive rec_next_t where
  | entry (ent : sqfs_dir_entry_t)
  | stop (ret : Int) (h : ret ≠ 0)

/-- The collaborators of the iterator over a world `ω`: the operations of the
underlying iterator `it->rec` and `realloc` (given the size of the name area
asked for; `none` is failure, `some c` success with `c` the indeterminate
content of the fresh bytes). -/
structure Env (ω : Type) where
  rec_next : ω → rec_next_t × ω
  rec_ignore_subdir : ω → ω
  rec_read_link : ω → (Int × Option (List Char)) × ω
  rec_open_subdir : ω → (Int × Option Nat) × ω
  rec_open_file_ro : ω → (Int × Option Nat) × ω
  rec_read_xattr : ω → (Int × Option Nat) × ω
  realloc : ω → Nat → Option Char × ω

/-- One call made on the underlying iterator. -/
inductive rec_call where
  | next (r : rec_next_t)
  | ignore_subdir

/-! ## `should_skip` and `apply_changes` -/

/-- `should_skip` (lines 78-98). -/
def should_skip (dir : dir_tree_iterator_t) (ent : sqfs_dir_entry_t) : Bool :=
  if dir.cfg.flags &&& DIR_SCAN_ONE_FILESYSTEM ≠ 0
      ∧ ent.flags &&& SQFS_DIR_ENTRY_FLAG_MOUNT_POINT ≠ 0 then
    true
  else
    let type_mask : Nat :=
      if ent.mode &&& S_IFMT = S_IFSOCK then DIR_SCAN_NO_SOCK
      else if ent.mode &&& S_IFMT = S_IFLNK then DIR_SCAN_NO_SLINK
      else if ent.mode &&& S_IFMT = S_IFREG then DIR_SCAN_NO_FILE
      else if ent.mode &&& S_IFMT = S_IFBLK then DIR_SCAN_NO_BLK
      else if ent.mode &&& S_IFMT = S_IFCHR then DIR_SCAN_NO_CHR
      else if ent.mode &&& S_IFMT = S_IFIFO then DIR_SCAN_NO_FIFO
      else 0
    decide (dir.cfg.flags &&& type_mask ≠ 0)

/-- `apply_changes` (lines 122-137). -/
def apply_changes (it : dir_tree_iterator_t) (ent : sqfs_dir_entry_t) :
    sqfs_dir_entry_t :=
  let ent := if ¬ (it.cfg.flags &&& DIR_SCAN_KEEP_TIME ≠ 0) then
      { ent with mtime := it.cfg.def_mtime } else ent
  let ent := if ¬ (it.cfg.flags &&& DIR_SCAN_KEEP_UID ≠ 0) then
      { ent with uid := it.cfg.def_uid } else ent
  let ent := if ¬ (it.cfg.flags &&& DIR_SCAN_KEEP_GID ≠ 0) then
      { ent with gid := it.cfg.def_gid } else ent
  if ¬ (it.cfg.flags &&& DIR_SCAN_KEEP_MODE ≠ 0) then
    let ent := { ent with mode := and_not ent.mode 0o7777 }
    { ent with mode := ent.mode ||| (it.cfg.def_mode &&& 0o7777) }
  else ent

/-! ## C strings and memory -/

/-- The terminator of a C string. -/
def NUL : Char := Char.ofNat 0

/-- The C string held in `s`: the bytes before the first NUL. -/
def cstr (s : List Char) : List Char := s.takeWhile (fun c => c != NUL)

/-- `strlen`. -/
def strlen (s : List Char) : Nat := (cstr s).length

/-- Store the first `n` bytes of `src` at offset `dst` of `buf` (the area
`dst .. dst + n` lies inside `buf` and `src` has `n` bytes at every use). -/
def mem_write (buf : List Char) (dst : Nat) (src : List Char) (n : Nat) : List Char :=
  buf.take dst ++ src.take n ++ buf.drop (dst + n)

/-- `memcpy(buf + dst, src, n)`. -/
def memcpy (buf : List Char) (dst : Nat) (src : List Char) (n : Nat) : List Char :=
  mem_write buf dst src n

/-- `memmove(buf + dst, buf + src, n)`: the source bytes are read before any
byte is stored, so the areas may overlap. -/
def memmove (buf : List Char) (dst src n : Nat) : List Char :=
  mem_write buf dst (buf.drop src) n

/-- `strrchr(s, c)` for `c` other than NUL: the tail of `s` that starts at the
last occurrence of `c`, `none` (NULL) when there is none. -/
def strrchr : List Char → Char → Option (List Char)
  | [], _ => none
  | x :: xs, c =>
    match strrchr xs c with
    | some p => some p
    | none => if x = c then some (x :: xs) else none

/-! ## `expand_path` -/

/-- The name area of an entry after a successful `realloc` to `n` bytes: the old
bytes (name and terminator), then fresh bytes of content `c`. -/
def realloc_name (name : List Char) (n : Nat) (c : Char) : List Char :=
  ((name ++ [NUL]) ++ List.replicate n c).take n

/-- `expand_path` (lines 100-120).  `none` is the NULL result. -/
def expand_path {ω : Type} (E : Env ω) (it : dir_tree_iterator_t)
    (ent : sqfs_dir_entry_t) (w : ω) : Option sqfs_dir_entry_t × ω :=
  match it.cfg.pfx with
  | none => (some ent, w)
  | some pfx =>
    if pfx.headD NUL ≠ NUL then
      let plen := strlen pfx + 1
      let slen := strlen ent.name + 1
      match E.realloc w (plen + slen) with
      | (none, w1) => (none, w1)
      | (some c, w1) =>
        let name := realloc_name ent.name (plen + slen) c
        let name := memmove name plen 0 slen
        let name := memcpy name 0 (pfx ++ [NUL]) (plen - 1)
        let name := name.set (plen - 1) '/'
        (some { ent with name := name.dropLast }, w1)
    else (some ent, w)

/-! ## Glob matching -/

/-- One element of a glob pattern. -/
inductive glob_t where
  | lit (c : Char)
  | any
  | star
  | set (neg : Bool) (items : List (Char × Char))
  | fail
deriving DecidableEq, Repr

/-- The members of a bracket expression, as ranges, and the pattern after the
closing bracket; `none` when the bracket is never closed.  A closing bracket in
first position is an ordinary member.  Every round uses at least one byte, so a
fuel of the length of the pattern is enough. -/
def bracket_items : Nat → Bool → List Char → Option (List (Char × Char) × List Char)
  | 0, _, _ => none
  | _, _, [] => none
  | n + 1, first, c :: rest =>
    if c = ']' ∧ first = false then some ([], rest)
    else if rest.head? = some '-' ∧ (rest.drop 1).head? ≠ none
        ∧ (rest.drop 1).head? ≠ some ']' then
      (bracket_items n false (rest.drop 2)).map
        (fun p => ((c, (rest.drop 1).headD c) :: p.1, p.2))
    else
      (bracket_items n false rest).map (fun p => ((c, c) :: p.1, p.2))

/-- Split a pattern into its elements; every element uses at least one byte, so
a fuel of the length of the pattern is enough. -/
def glob_parse : Nat → List Char → List glob_t
  | 0, _ => []
  | _, [] => []
  | n + 1, c :: rest =>
    if c = '*' then glob_t.star :: glob_parse n rest
    else if c = '?' then glob_t.any :: glob_parse n rest
    else if c = '\\' then
      match rest with
      | [] => [glob_t.fail]
      | d :: rest2 => glob_t.lit d :: glob_parse n rest2
    else if c = '[' then
      let neg : Bool := decide (rest.head? = some '!' ∨ rest.head? = some '^')
      match bracket_items rest.length true (if neg then rest.drop 1 else rest) with
      | some (items, rest2) => glob_t.set neg items :: glob_parse n rest2
      | none => glob_t.lit '[' :: glob_parse n rest
    else glob_t.lit c :: glob_parse n rest

/-- A wildcard may stand for `x`: never for a slash in pathname mode. -/
def wild_ok (pathname : Bool) (x : Char) : Bool := !(pathname && x == '/')

/-- The tails of `s` that a star may leave, tried from the longest. -/
def star_loop (pathname : Bool) (k : List Char → Bool) : List Char → Bool
  | [] => k []
  | x :: s => k (x :: s) || (wild_ok pathname x && star_loop pathname k s)

/-- Match a parsed pattern against a whole string. -/
def glob_match (pathname : Bool) : List glob_t → List Char → Bool
  | [], s => s.isEmpty
  | glob_t.star :: p, s => star_loop pathname (glob_match pathname p) s
  | _ :: _, [] => false
  | glob_t.lit c :: p, x :: s => x == c && glob_match pathname p s
  | glob_t.any :: p, x :: s => wild_ok pathname x && glob_match pathname p s
  | glob_t.set neg items :: p, x :: s =>
    wild_ok pathname x && (items.any (fun r => r.1 ≤ x && x ≤ r.2) != neg)
      && glob_match pathname p s
  | glob_t.fail :: _, _ :: _ => false

/-- Modelled from the spec: glob matching of `fnmatch` (the C library, not part
of the sources): "standard glob semantics where `*`/`?`/`[...]` are wildcards
and, in full-path mode, path delimiters are never matched by a wildcard".  The
result is 0 on a match and `FNM_NOMATCH` otherwise.  A backslash quotes the next
byte; character classes such as `[:alpha:]` are not modelled. -/
def fnmatch (pattern string : List Char) (flags : Nat) : Int :=
  if glob_match (decide (flags &&& FNM_PATHNAME ≠ 0))
      (glob_parse (cstr pattern).length (cstr pattern)) (cstr string) then 0
  else FNM_NOMATCH

/-! ## `next` -/

/-- Lines 200-201: `strrchr(name, '/')`, then `name` itself when the result is
NULL and the result plus one otherwise. -/
def last_part (name : List Char) : List Char :=
  match strrchr (cstr name) '/' with
  | none => name
  | some p => p.drop 1

/-- Lines 195-204: the value of `ret` after the pattern test.  Without a pattern
`ret` is still the 0 of the successful pull. -/
def pattern_ret (it : dir_tree_iterator_t) (ent : sqfs_dir_entry_t) : Int :=
  match it.cfg.name_pattern with
  | none => 0
  | some pat =>
    if it.cfg.flags &&& DIR_SCAN_MATCH_FULL_PATH ≠ 0 then
      fnmatch pat ent.name FNM_PATHNAME
    else
      fnmatch pat (last_part ent.name) 0

/-- How one pass from the label `retry` ends: a `return` with a status and the
entry stored to `*out` (`none` is NULL), or a back edge. -/
inductive pass_t where
  | ret (status : Int) (out : Option sqfs_dir_entry_t)
  | again

/-- The result of one pass: how it ends, the iterator, the world and the calls
made on the underlying iterator. -/
structure pass_ret (ω : Type) where
  res : pass_t
  it : dir_tree_iterator_t
  world : ω
  calls : List rec_call

/-- One pass of `next` from the label `retry` (lines 157-213) to a `return`, to
`goto retry` or to the next round of the `for (;;)` loop. -/
def next_pass {ω : Type} (E : Env ω) (it : dir_tree_iterator_t) (w : ω) : pass_ret ω :=
  match E.rec_next w with
  | (rec_next_t.stop ret h, w1) =>
    ⟨pass_t.ret ret none, { it with state := ret }, w1, [rec_call.next (rec_next_t.stop ret h)]⟩
  | (rec_next_t.entry ent, w1) =>
    if should_skip it ent then
      if S_ISDIR ent.mode then
        ⟨pass_t.again, it, E.rec_ignore_subdir w1,
          [rec_call.next (rec_next_t.entry ent), rec_call.ignore_subdir]⟩
      else
        ⟨pass_t.again, it, w1, [rec_call.next (rec_next_t.entry ent)]⟩
    else
      match expand_path E it ent w1 with
      | (none, w2) =>
        ⟨pass_t.ret SQFS_ERROR_ALLOC none, { it with state := SQFS_ERROR_ALLOC }, w2,
          [rec_call.next (rec_next_t.entry ent)]⟩
      | (some ent1, w2) =>
        let ent2 := apply_changes it ent1
        let ign : Bool := S_ISDIR ent2.mode && decide (it.cfg.flags &&& DIR_SCAN_NO_RECURSION ≠ 0)
        let w3 := if ign then E.rec_ignore_subdir w2 else w2
        let calls := rec_call.next (rec_next_t.entry ent)
          :: (if ign then [rec_call.ignore_subdir] else [])
        if S_ISDIR ent2.mode ∧ it.cfg.flags &&& DIR_SCAN_NO_DIR ≠ 0 then
          ⟨pass_t.again, it, w3, calls⟩
        else if pattern_ret it ent2 ≠ 0 then
          ⟨pass_t.again, it, w3, calls⟩
        else
          ⟨pass_t.ret it.state (some ent2), it, w3, calls⟩

/-- What a call of `next` leaves: the status returned, the store made to `*out`
(`none`: no store, `some none`: NULL, `some (some e)`: the entry handed out),
the iterator, the world and the calls made on the underlying iterator. -/
structure next_ret (ω : Type) where
  ret : Int
  out : Option (Option sqfs_dir_entry_t)
  it : dir_tree_iterator_t
  world : ω
  calls : List rec_call

/-- The passes of `next` from the label `retry`, at most `fuel` of them. -/
def next_loop {ω : Type} (E : Env ω) : Nat → dir_tree_iterator_t → ω → Option (next_ret ω)
  | 0, _, _ => none
  | fuel + 1, it, w =>
    let p := next_pass E it w
    match p.res with
    | pass_t.ret status out => some ⟨status, some out, p.it, p.world, p.calls⟩
    | pass_t.again =>
      (next_loop E fuel p.it p.world).map (fun r => { r with calls := p.calls ++ r.calls })

/-- `next` (lines 149-214); `none` when `fuel` passes do not reach a `return`. -/
def next {ω : Type} (E : Env ω) (fuel : Nat) (it : dir_tree_iterator_t) (w : ω) :
    Option (next_ret ω) :=
  if it.state ≠ 0 then some ⟨it.state, none, it, w, []⟩
  else next_loop E fuel it w

/-! ## A concrete world -/

/-- Modelled from the spec: the Primitive Directory Iterator ("lazily produces
one entry per call, depth-first, supporting ignore this subdirectory's
contents"), here over a fixed listing in depth-first order, together with a heap
whose coming `realloc` outcomes are listed in `heap` (success once the list is
used up).  `final` is the status reported at the end of the listing. -/
structure sim_world where
  pending : List sqfs_dir_entry_t
  last : Option sqfs_dir_entry_t
  final : Int
  heap : List (Option Char)
deriving DecidableEq, Repr

/-- `next` of the simulated iterator. -/
def sim_next (w : sim_world) : rec_next_t × sim_world :=
  match w.pending with
  | e :: rest => (rec_next_t.entry e, { w with pending := rest, last := some e })
  | [] =>
    if h : w.final ≠ 0 then (rec_next_t.stop w.final h, { w with last := none })
    else (rec_next_t.stop 1 (by decide), { w with last := none })

/-- `ignore_subdir` of the simulated iterator: when the entry produced last is a
directory, the entries below it are dropped from the listing. -/
def sim_ignore_subdir (w : sim_world) : sim_world :=
  match w.last with
  | none => w
  | some d =>
    if S_ISDIR d.mode then
      { w with pending :=
          w.pending.dropWhile (fun e => (cstr d.name ++ ['/']).isPrefixOf (cstr e.name)) }
    else w

/-- `realloc` of the simulated heap. -/
def sim_realloc (w : sim_world) (_n : Nat) : Option Char × sim_world :=
  match w.heap with
  | [] => (some '#', w)
  | r :: rest => (r, { w with heap := rest })

/-- A delegated operation of the simulated iterator: it answers for the entry
produced last with the given field, and fails with -3 when there is none. -/
def sim_query {α : Type} (f : sqfs_dir_entry_t → α) (w : sim_world) :
    (Int × Option α) × sim_world :=
  match w.last with
  | some e => ((0, some (f e)), w)
  | none => ((-3, none), w)

/-- The simulated collaborators. -/
def sim_env : Env sim_world :=
  { rec_next := sim_next
    rec_ignore_subdir := sim_ignore_subdir
    rec_read_link := sim_query (fun e => e.name)
    rec_open_subdir := sim_query (fun e => e.mode)
    rec_open_file_ro := sim_query (fun e => e.size)
    rec_read_xattr := sim_query (fun e => e.flags)
    realloc := sim_realloc }

/-- An entry with the given name and mode, every other field zero. -/
def mk_entry (name : String) (mode : Nat) : sqfs_dir_entry_t :=
  ⟨0, 0, 0, 0, 0, 0, mode, 0, name.toList⟩

/-- A policy with the given flags, every default zero, no prefix, no pattern. -/
def mk_cfg (flags : Nat) : dir_tree_cfg_t :=
  ⟨flags, 0, 0, 0, 0, none, none⟩

/-- A world at the start of the given listing, ending in status 1, with a heap
that never fails. -/
def mk_world (es : List sqfs_dir_entry_t) : sim_world :=
  ⟨es, none, 1, []⟩

/-! ## Specification-side definitions -/

/-- The name the specification gives to an emitted entry: `prefix ++ "/" ++ name`
when a non-empty prefix is set, the name itself when the prefix is NULL or
empty. -/
def prefixed_name (pfx : Option (List Char)) (name : List Char) : List Char :=
  match pfx with
  | none => name
  | some p => if cstr p = [] then name else cstr p ++ '/' :: cstr name

/-- The image of an entry under path prefixing followed by attribute
normalisation. -/
def emitted (it : dir_tree_iterator_t) (e : sqfs_dir_entry_t) : sqfs_dir_entry_t :=
  apply_changes it { e with name := prefixed_name it.cfg.pfx e.name }

/-- The type of `mode` is one of the seven file types and the exclusion bit of
that type is set in `flags`. -/
def type_excluded (flags mode : Nat) : Bool :=
  (mode &&& S_IFMT == S_IFSOCK && flags &&& DIR_SCAN_NO_SOCK != 0)
  || (mode &&& S_IFMT == S_IFLNK && flags &&& DIR_SCAN_NO_SLINK != 0)
  || (mode &&& S_IFMT == S_IFREG && flags &&& DIR_SCAN_NO_FILE != 0)
  || (mode &&& S_IFMT == S_IFBLK && flags &&& DIR_SCAN_NO_BLK != 0)
  || (mode &&& S_IFMT == S_IFDIR && flags &&& DIR_SCAN_NO_DIR != 0)
  || (mode &&& S_IFMT == S_IFCHR && flags &&& DIR_SCAN_NO_CHR != 0)
  || (mode &&& S_IFMT == S_IFIFO && flags &&& DIR_SCAN_NO_FIFO != 0)

/-- The entry is a mount point and the policy stays on one filesystem. -/
def mount_skipped (it : dir_tree_iterator_t) (e : sqfs_dir_entry_t) : Bool :=
  decide (it.cfg.flags &&& DIR_SCAN_ONE_FILESYSTEM ≠ 0
    ∧ e.flags &&& SQFS_DIR_ENTRY_FLAG_MOUNT_POINT ≠ 0)

/-- The pattern of the policy does not match the emitted form of the entry. -/
def pattern_rejects (it : dir_tree_iterator_t) (e : sqfs_dir_entry_t) : Bool :=
  decide (pattern_ret it (emitted it e) ≠ 0)

/-- The entry is discarded by the policy: skipped by type or mount point, a
directory under `DIR_SCAN_NO_DIR`, or rejected by the pattern. -/
def rejected (it : dir_tree_iterator_t) (e : sqfs_dir_entry_t) : Bool :=
  should_skip it e
  || (S_ISDIR e.mode && decide (it.cfg.flags &&& DIR_SCAN_NO_DIR ≠ 0))
  || pattern_rejects it e

/-- The subtree of the entry is given up: the entry is a directory that is
skipped, or a directory under `DIR_SCAN_NO_RECURSION`. -/
def ignore_after (it : dir_tree_iterator_t) (e : sqfs_dir_entry_t) : Bool :=
  S_ISDIR e.mode && (should_skip it e || decide (it.cfg.flags &&& DIR_SCAN_NO_RECURSION ≠ 0))

/-- The calls of a pass that pulls `e` and gets through `expand_path`. -/
def pass_calls (it : dir_tree_iterator_t) (e : sqfs_dir_entry_t) : List rec_call :=
  rec_call.next (rec_next_t.entry e)
    :: (if ignore_after it e then [rec_call.ignore_subdir] else [])

/-- The calls of the passes that pull and discard the entries of `es`. -/
def reject_trace (it : dir_tree_iterator_t) : List sqfs_dir_entry_t → List rec_call
  | [] => []
  | e :: es => pass_calls it e ++ reject_trace it es

/-- The trace starts with a call of `ignore_subdir`. -/
def starts_with_ignore : List rec_call → Bool
  | rec_call.ignore_subdir :: _ => true
  | _ => false

/-- The trace starts with a pull. -/
def starts_with_next : List rec_call → Bool
  | rec_call.next _ :: _ => true
  | _ => false

/-- Every successful pull of the trace satisfies `P`, given the entry pulled and
the calls that follow it. -/
def after_pull (P : sqfs_dir_entry_t → List rec_call → Bool) : List rec_call → Bool
  | [] => true
  | rec_call.next (rec_next_t.entry d) :: rest => P d rest && after_pull P rest
  | _ :: rest => after_pull P rest

/-- The entries pulled in the trace, in order. -/
def pulled : List rec_call → List sqfs_dir_entry_t
  | [] => []
  | rec_call.next (rec_next_t.entry d) :: rest => d :: pulled rest
  | _ :: rest => pulled rest

/-- The call of `next` that comes after `k` earlier calls on the same iterator. -/
def later_call {ω : Type} (E : Env ω) (fuel : Nat) :
    Nat → dir_tree_iterator_t → ω → Option (next_ret ω)
  | 0, it, w => next E fuel it w
  | k + 1, it, w =>
    match next E fuel it w with
    | none => none
    | some r => later_call E fuel k r.it r.world

/-- A pulled directory is directly followed by `ignore_subdir` exactly when
`want` holds of it; nothing is asked of other entries. -/
def ignore_iff (want : sqfs_dir_entry_t → Bool) (d : sqfs_dir_entry_t)
    (rest : List rec_call) : Bool :=
  !S_ISDIR d.mode || (starts_with_ignore rest == want d)

/-- No pull of the trace for a directory that `should_skip` lets through is
directly followed by `ignore_subdir`. -/
def not_ignored (it : dir_tree_iterator_t) (d : sqfs_dir_entry_t)
    (rest : List rec_call) : Bool :=
  !(S_ISDIR d.mode && !should_skip it d) || !starts_with_ignore rest

/-- The pull of a directory that `should_skip` lets through and the pattern
rejects is directly followed by another pull. -/
def pulls_on (it : dir_tree_iterator_t) (d : sqfs_dir_entry_t)
    (rest : List rec_call) : Bool :=
  !(S_ISDIR d.mode && !should_skip it d && pattern_rejects it d) || starts_with_next rest

/-- The entries the underlying iterator produces when it is pulled until it
reports a non-zero status, that status, and the world at the end. -/
def rec_drain {ω : Type} (E : Env ω) : Nat → ω → Option (List sqfs_dir_entry_t × Int × ω)
  | 0, _ => none
  | n + 1, w =>
    match E.rec_next w with
    | (rec_next_t.stop s _, w1) => some ([], s, w1)
    | (rec_next_t.entry e, w1) => (rec_drain E n w1).map (fun p => (e :: p.1, p.2))

/-- The entries handed out by `next` when it is called until it returns a
non-zero status, that status, and the iterator and the world at the end. -/
def drain {ω : Type} (E : Env ω) (fuel : Nat) :
    Nat → dir_tree_iterator_t → ω →
      Option (List sqfs_dir_entry_t × Int × dir_tree_iterator_t × ω)
  | 0, _, _ => none
  | n + 1, it, w =>
    match next E fuel it w with
    | none => none
    | some r =>
      if r.ret ≠ 0 then some ([], r.ret, r.it, r.world)
      else (drain E fuel n r.it r.world).map (fun p => (r.out.join.toList ++ p.1, p.2))

/-- No `DIR_SCAN_NO_*` bit is set: none of the seven type exclusions and not
`DIR_SCAN_NO_RECURSION`. -/
def no_exclusion_bits (flags : Nat) : Bool :=
  decide (flags &&& DIR_SCAN_NO_SOCK = 0) && decide (flags &&& DIR_SCAN_NO_SLINK = 0)
  && decide (flags &&& DIR_SCAN_NO_FILE = 0) && decide (flags &&& DIR_SCAN_NO_BLK = 0)
  && decide (flags &&& DIR_SCAN_NO_DIR = 0) && decide (flags &&& DIR_SCAN_NO_CHR = 0)
  && decide (flags &&& DIR_SCAN_NO_FIFO = 0) && decide (flags &&& DIR_SCAN_NO_RECURSION = 0)

/-! ## The other operations of the iterator -/

/-- One of the four operations that the iterator hands on to `it->rec`. -/
inductive rec_query where
  | read_link
  | open_subdir
  | open_file_ro
  | read_xattr
deriving DecidableEq, Repr

/-- What a delegated operation leaves: the status returned, the result stored
through `out` (`none`: no result), the iterator, the world and the calls made on
the underlying iterator. -/
structure query_ret (α ω : Type) where
  ret : Int
  out : Option α
  it : dir_tree_iterator_t
  world : ω
  calls : List rec_query

/-- `read_link` (lines 216-224). -/
def read_link {ω : Type} (E : Env ω) (it : dir_tree_iterator_t) (w : ω) :
    query_ret (List Char) ω :=
  if it.state ≠ 0 then ⟨it.state, none, it, w, []⟩
  else ⟨(E.rec_read_link w).1.1, (E.rec_read_link w).1.2, it, (E.rec_read_link w).2,
    [rec_query.read_link]⟩

/-- `open_subdir` (lines 226-234). -/
def open_subdir {ω : Type} (E : Env ω) (it : dir_tree_iterator_t) (w : ω) :
    query_ret Nat ω :=
  if it.state ≠ 0 then ⟨it.state, none, it, w, []⟩
  else ⟨(E.rec_open_subdir w).1.1, (E.rec_open_subdir w).1.2, it, (E.rec_open_subdir w).2,
    [rec_query.open_subdir]⟩

/-- `ignore_subdir` (lines 236-242): the iterator, the world and the calls made
on the underlying iterator. -/
def ignore_subdir {ω : Type} (E : Env ω) (it : dir_tree_iterator_t) (w : ω) :
    dir_tree_iterator_t × ω × List rec_call :=
  if it.state = 0 then (it, E.rec_ignore_subdir w, [rec_call.ignore_subdir])
  else (it, w, [])

/-- `open_file_ro` (lines 244-252). -/
def open_file_ro {ω : Type} (E : Env ω) (it : dir_tree_iterator_t) (w : ω) :
    query_ret Nat ω :=
  if it.state ≠ 0 then ⟨it.state, none, it, w, []⟩
  else ⟨(E.rec_open_file_ro w).1.1, (E.rec_open_file_ro w).1.2, it,
    (E.rec_open_file_ro w).2, [rec_query.open_file_ro]⟩

/-- `read_xattr` (lines 254-262). -/
def read_xattr {ω : Type} (E : Env ω) (it : dir_tree_iterator_t) (w : ω) :
    query_ret Nat ω :=
  if it.state ≠ 0 then ⟨it.state, none, it, w, []⟩
  else ⟨(E.rec_read_xattr w).1.1, (E.rec_read_xattr w).1.2, it, (E.rec_read_xattr w).2,
    [rec_query.read_xattr]⟩

/-- The pull of a directory flagged as a mount point is directly followed by
`ignore_subdir`. -/
def mount_dir_ignored (d : sqfs_dir_entry_t) (rest : List rec_call) : Bool :=
  !(S_ISDIR d.mode && decide (d.flags &&& SQFS_DIR_ENTRY_FLAG_MOUNT_POINT ≠ 0))
    || starts_with_ignore rest

/-- The calls made on the underlying iterator by the calls of `next` that
`drain` makes, in order. -/
def drain_calls {ω : Type} (E : Env ω) (fuel : Nat) :
    Nat → dir_tree_iterator_t → ω → Option (List rec_call)
  | 0, _, _ => none
  | n + 1, it, w =>
    match next E fuel it w with
    | none => none
    | some r =>
      if r.ret ≠ 0 then some r.calls
      else (drain_calls E fuel n r.it r.world).map (fun t => r.calls ++ t)

/-- The number of pulls in a trace. -/
def pull_count : List rec_call → Nat
  | [] => 0
  | rec_call.next _ :: rest => pull_count rest + 1
  | _ :: rest => pull_count rest

/-- The underlying iterator has a finite entry stream, and `rem w` is the number
of entries it still has in the world `w`: a pull that gives an entry uses one of
them, a pull that gives a non-zero status finds none, and neither `ignore_subdir`
nor `realloc` adds any. -/
def finite_stream {ω : Type} (E : Env ω) (rem : ω → Nat) : Prop :=
  (∀ w e w1, E.rec_next w = (rec_next_t.entry e, w1) → rem w = rem w1 + 1)
  ∧ (∀ w s h w1, E.rec_next w = (rec_next_t.stop s h, w1) → rem w = 0)
  ∧ (∀ w, rem (E.rec_ignore_subdir w) ≤ rem w)
  ∧ (∀ w n, rem (E.realloc w n).2 ≤ rem w)

/-! ## `parse_fstree_defaults` (`src/sqfs-simple-writer.c`, lines 31-119) -/

def DEF_UID : Int := 0
def DEF_GID : Int := 1
def DEF_MODE : Int := 2
def DEF_MTIME : Int := 3

/-- The names of the suboptions, in the order of the array `defaults`. -/
def defaults : List (List Char) :=
  ["uid".toList, "gid".toList, "mode".toList, "mtime".toList]

/-- The constant `INT32_MAX` of `<stdint.h>`. -/
def INT32_MAX : Int := 2147483647

/-- The constant `UINT32_MAX` of `<stdint.h>`. -/
def UINT32_MAX : Int := 4294967295

/-- The C library as `parse_fstree_defaults` uses it, none of it part of the
sources.  `getsubopt s` gives the index of the suboption at the head of `s` (-1
when it is none of `defaults`), its value (`none`: NULL) and the rest of `s`;
`strtol v` gives the result of `strtol(v, NULL, 0)` and whether it left `errno`
set; `sizeof_long` is `sizeof(long)`. -/
structure libc_t where
  getsubopt : List Char → (Int × Option (List Char)) × List Char
  strtol : List Char → Int × Bool
  sizeof_long : Nat

/-- The fields of `fstree_defaults_t` that `parse_fstree_defaults` sets; its
declaration is not part of the sources.  The stores below keep 32 bits of uid,
gid and mtime, and the 16 bits of the cast `(sqfs_u16)` of mode. -/
structure fstree_defaults_t where
  uid : Nat
  gid : Nat
  mtime : Nat
  mode : Nat
deriving DecidableEq, Repr

/-- The `switch` of `parse_fstree_defaults` (lines 69-109) for the suboption of
index `i` with the given value: the defaults after the store, or `none` for the
three ways to `return -1` (`fail_uv`, `fail_ov`, unknown option). -/
def set_default (L : libc_t) (sb : fstree_defaults_t) (i : Int) (value : List Char) :
    Option fstree_defaults_t :=
  let lval := (L.strtol value).1
  if i = DEF_UID then
    if lval < 0 then none
    else if lval > INT32_MAX then none
    else some { sb with uid := lval.toNat % 2 ^ 32 }
  else if i = DEF_GID then
    if lval < 0 then none
    else if lval > INT32_MAX then none
    else some { sb with gid := lval.toNat % 2 ^ 32 }
  else if i = DEF_MODE then
    if lval < 0 then none
    else if lval > 0o7777 then none
    else some { sb with mode := S_IFDIR ||| (lval.toNat % 2 ^ 16) }
  else if i = DEF_MTIME then
    if lval < 0 then none
    else if L.sizeof_long > 4 then
      if lval > UINT32_MAX then none
      else some { sb with mtime := lval.toNat % 2 ^ 32 }
    else if (L.strtol value).2 then none
    else some { sb with mtime := lval.toNat % 2 ^ 32 }
  else none

/-- The `while` loop of `parse_fstree_defaults` (lines 59-111), at most `fuel`
rounds of it: the value returned and the defaults as they stand then. -/
def parse_loop (L : libc_t) :
    Nat → fstree_defaults_t → List Char → Option (Int × fstree_defaults_t)
  | 0, sb, s => if s.headD NUL = NUL then some (0, sb) else none
  | fuel + 1, sb, s =>
    if s.headD NUL = NUL then some (0, sb)
    else
      match L.getsubopt s with
      | ((_, none), _) => some (-1, sb)
      | ((i, some value), rest) =>
        match set_default L sb i value with
        | none => some (-1, sb)
        | some sb1 => parse_loop L fuel sb1 rest

/-- `parse_fstree_defaults` (lines 47-119); `none` is the NULL pointer, and the
result is `none` when `fuel` rounds of the loop do not reach a `return`. -/
def parse_fstree_defaults (L : libc_t) (fuel : Nat) (subopts : Option (List Char)) :
    Option (Int × fstree_defaults_t) :=
  let sb : fstree_defaults_t := ⟨0, 0, 0, S_IFDIR ||| 0o755⟩
  match subopts with
  | none => some (0, sb)
  | some s => parse_loop L fuel sb s

/-- A `getsubopt` for the examples: the suboption runs to the next comma, its name
to the first `=`; an unknown name gives -1 and the whole suboption as value. -/
def sim_getsubopt (s : List Char) : (Int × Option (List Char)) × List Char :=
  let tok := s.takeWhile (fun c => c != ',')
  let rest := (s.dropWhile (fun c => c != ',')).drop 1
  let name := tok.takeWhile (fun c => c != '=')
  let value : Option (List Char) :=
    if '=' ∈ tok then some ((tok.dropWhile (fun c => c != '=')).drop 1) else none
  if name ∈ defaults then ((Int.ofNat (defaults.indexOf name), value), rest)
  else ((-1, some tok), rest)

/-- The value of a digit in the given base, if it is one. -/
def digit_val (base : Nat) (c : Char) : Option Nat :=
  let v : Nat :=
    if '0' ≤ c ∧ c ≤ '9' then c.toNat - '0'.toNat
    else if 'a' ≤ c ∧ c ≤ 'z' then c.toNat - 'a'.toNat + 10
    else if 'A' ≤ c ∧ c ≤ 'Z' then c.toNat - 'A'.toNat + 10
    else base
  if v < base then some v else none

/-- The number spelled by the leading digits of `s` in the given base. -/
def parse_digits (base : Nat) : Nat → List Char → Nat
  | acc, [] => acc
  | acc, c :: s =>
    match digit_val base c with
    | some v => parse_digits base (acc * base + v) s
    | none => acc

/-- A `strtol(s, NULL, 0)` for the examples, with a 64-bit `long`: blanks, a sign,
`0x` for base 16, a leading `0` for base 8, base 10 otherwise, and the result
clamped to the range of `long` with `errno` set. -/
def sim_strtol (s : List Char) : Int × Bool :=
  let s := s.dropWhile (fun c => c == ' ' || c == '\t' || c == '\n')
  let neg : Bool := s.head? == some '-'
  let s := if s.head? == some '-' || s.head? == some '+' then s.drop 1 else s
  let hex : Bool := (s.take 2 == ['0', 'x'] || s.take 2 == ['0', 'X'])
    && ((s.drop 2).head?.bind (digit_val 16)).isSome
  let n : Nat :=
    if hex then parse_digits 16 0 (s.drop 2)
    else if s.head? == some '0' then parse_digits 8 0 s
    else parse_digits 10 0 s
  if neg then
    if n > 2 ^ 63 then (-(2 ^ 63 : Int), true) else (-(n : Int), false)
  else
    if n > 2 ^ 63 - 1 then ((2 ^ 63 - 1 : Int), true) else ((n : Int), false)

/-- The C library of the examples. -/
def sim_libc : libc_t := ⟨sim_getsubopt, sim_strtol, 8⟩

/-! ## Bits of `mode` -/

theorem and_not_or_and_disjoint (x d p t : Nat) (h : p &&& t = 0) :
    (and_not x p ||| (d &&& p)) &&& t = x &&& t := by
  apply Nat.eq_of_testBit_eq
  intro i
  have hi : (p &&& t).testBit i = false := by rw [h]; simp
  rw [Nat.testBit_and] at hi
  simp only [and_not, Nat.testBit_and, Nat.testBit_or, Nat.testBit_xor]
  revert hi
  cases x.testBit i <;> cases d.testBit i <;> cases p.testBit i <;> cases t.testBit i <;> simp

theorem and_not_or_and_low (x d p : Nat) :
    (and_not x p ||| (d &&& p)) &&& p = d &&& p := by
  apply Nat.eq_of_testBit_eq
  intro i
  simp only [and_not, Nat.testBit_and, Nat.testBit_or, Nat.testBit_xor]
  cases x.testBit i <;> cases d.testBit i <;> cases p.testBit i <;> simp

theorem and_not_or_and_shift (x d : Nat) :
    (and_not x 0o7777 ||| (d &&& 0o7777)) >>> 12 = x >>> 12 := by
  apply Nat.eq_of_testBit_eq
  intro i
  have h : (0o7777 : Nat).testBit (12 + i) = false := by
    have : (0o7777 : Nat) = 2 ^ 12 - 1 := by norm_num
    rw [this, Nat.testBit_two_pow_sub_one]
    simp
  simp only [and_not, Nat.testBit_shiftRight, Nat.testBit_and, Nat.testBit_or,
    Nat.testBit_xor, h]
  simp

theorem apply_changes_mode_ifmt (it : dir_tree_iterator_t) (e : sqfs_dir_entry_t) :
    (apply_changes it e).mode &&& S_IFMT = e.mode &&& S_IFMT := by
  unfold apply_changes
  by_cases hm : it.cfg.flags &&& DIR_SCAN_KEEP_MODE ≠ 0
  · simp only [hm, not_true_eq_false, if_false]
    split_ifs <;> rfl
  · simp only [hm, not_false_eq_true, if_true]
    have := and_not_or_and_disjoint e.mode it.cfg.def_mode 0o7777 S_IFMT (by decide)
    split_ifs <;> exact this

theorem apply_changes_isdir (it : dir_tree_iterator_t) (e : sqfs_dir_entry_t) :
    S_ISDIR (apply_changes it e).mode = S_ISDIR e.mode := by
  unfold S_ISDIR
  rw [apply_changes_mode_ifmt]

theorem apply_changes_name (it : dir_tree_iterator_t) (e : sqfs_dir_entry_t) :
    (apply_changes it e).name = e.name := by
  unfold apply_changes
  split_ifs <;> rfl

theorem apply_changes_flags (it : dir_tree_iterator_t) (e : sqfs_dir_entry_t) :
    (apply_changes it e).flags = e.flags := by
  unfold apply_changes
  split_ifs <;> rfl

theorem emitted_isdir (it : dir_tree_iterator_t) (e : sqfs_dir_entry_t) :
    S_ISDIR (emitted it e).mode = S_ISDIR e.mode := by
  unfold emitted
  rw [apply_changes_isdir]

theorem emitted_mode_ifmt (it : dir_tree_iterator_t) (e : sqfs_dir_entry_t) :
    (emitted it e).mode &&& S_IFMT = e.mode &&& S_IFMT := by
  unfold emitted
  rw [apply_changes_mode_ifmt]

/-! ## `expand_path` builds the prefixed name -/

theorem take_strlen_succ (name : List Char) :
    (name ++ [NUL]).take (strlen name + 1) = cstr name ++ [NUL] := by
  induction name with
  | nil => simp [strlen, cstr]
  | cons x xs ih =>
    by_cases hx : x = NUL
    · subst hx
      simp [strlen, cstr]
    · have hb : (x != NUL) = true := by simpa using hx
      simp only [strlen, cstr, List.takeWhile_cons, hb, if_true, List.length_cons,
        List.cons_append, List.take_succ_cons] at ih ⊢
      rw [ih]

theorem take_strlen (pfx : List Char) :
    (pfx ++ [NUL]).take (strlen pfx) = cstr pfx := by
  induction pfx with
  | nil => simp [strlen, cstr]
  | cons x xs ih =>
    by_cases hx : x = NUL
    · subst hx
      simp [strlen, cstr]
    · have hb : (x != NUL) = true := by simpa using hx
      simp only [strlen, cstr, List.takeWhile_cons, hb, if_true, List.length_cons,
        List.cons_append, List.take_succ_cons] at ih ⊢
      rw [ih]

theorem strlen_le_length (s : List Char) : strlen s ≤ s.length := by
  unfold strlen cstr
  exact (List.takeWhile_sublist _).length_le

theorem realloc_name_length (name : List Char) (n : Nat) (c : Char) :
    (realloc_name name n c).length = n := by
  simp [realloc_name]
  omega

theorem realloc_name_take (name : List Char) (n : Nat) (c : Char)
    (h : strlen name + 1 ≤ n) :
    (realloc_name name n c).take (strlen name + 1) = cstr name ++ [NUL] := by
  unfold realloc_name
  rw [List.take_take, Nat.min_eq_left h, List.take_append_of_le_length]
  · exact take_strlen_succ name
  · have := strlen_le_length name
    simp
    omega

/-- The bytes of the name area after the four stores of `expand_path`. -/
theorem expand_buffer (pfx name : List Char) (c : Char) :
    (memcpy (memmove (realloc_name name (strlen pfx + 1 + (strlen name + 1)) c)
        (strlen pfx + 1) 0 (strlen name + 1)) 0 (pfx ++ [NUL]) (strlen pfx + 1 - 1)).set
      (strlen pfx + 1 - 1) '/'
      = cstr pfx ++ '/' :: cstr name ++ [NUL] := by
  set buf := realloc_name name (strlen pfx + 1 + (strlen name + 1)) c with hbuf
  have hlen : buf.length = strlen pfx + 1 + (strlen name + 1) := realloc_name_length _ _ _
  have htk : buf.take (strlen name + 1) = cstr name ++ [NUL] :=
    realloc_name_take name _ c (by omega)
  have hmv : memmove buf (strlen pfx + 1) 0 (strlen name + 1)
      = buf.take (strlen pfx + 1) ++ (cstr name ++ [NUL]) := by
    unfold memmove mem_write
    rw [List.drop_zero, htk, List.drop_of_length_le (by omega)]
    simp
  have hpl : (buf.take (strlen pfx + 1)).length = strlen pfx + 1 := by
    rw [List.length_take]; omega
  obtain ⟨y, hy⟩ : ∃ y, (buf.take (strlen pfx + 1)).drop (strlen pfx) = [y] := by
    have h1 : ((buf.take (strlen pfx + 1)).drop (strlen pfx)).length = 1 := by
      rw [List.length_drop, hpl]; omega
    match h : (buf.take (strlen pfx + 1)).drop (strlen pfx), h1 with
    | [y], _ => exact ⟨y, rfl⟩
  have hcp : memcpy (memmove buf (strlen pfx + 1) 0 (strlen name + 1)) 0 (pfx ++ [NUL])
      (strlen pfx + 1 - 1) = cstr pfx ++ y :: (cstr name ++ [NUL]) := by
    unfold memcpy mem_write
    rw [hmv, Nat.add_sub_cancel, take_strlen, Nat.zero_add,
      List.drop_append_of_le_length (by omega), hy]
    simp
  rw [hcp, Nat.add_sub_cancel]
  have : (cstr pfx).length = strlen pfx := rfl
  rw [List.set_append_right _ _ (by omega)]
  simp [this]

theorem expand_path_none_pfx {ω : Type} (E : Env ω) (it : dir_tree_iterator_t)
    (ent : sqfs_dir_entry_t) (w : ω) (h : it.cfg.pfx = none) :
    expand_path E it ent w = (some ent, w) := by
  unfold expand_path
  rw [h]

theorem headD_eq_NUL_iff (p : List Char) : p.headD NUL = NUL ↔ cstr p = [] := by
  cases p with
  | nil => simp [cstr]
  | cons x xs =>
    by_cases hx : x = NUL
    · simp [cstr, hx]
    · simp [cstr, hx]

/-- Whenever `expand_path` gives back an entry, it is the entry it was given with the
name the specification asks for. -/
theorem expand_path_some {ω : Type} (E : Env ω) (it : dir_tree_iterator_t)
    (ent e1 : sqfs_dir_entry_t) (w w1 : ω) (h : expand_path E it ent w = (some e1, w1)) :
    e1 = { ent with name := prefixed_name it.cfg.pfx ent.name } := by
  unfold expand_path at h
  unfold prefixed_name
  cases hp : it.cfg.pfx with
  | none =>
    rw [hp] at h
    simp only [Prod.mk.injEq, Option.some.injEq] at h
    rw [← h.1]
  | some p =>
    rw [hp] at h
    by_cases hh : p.headD NUL = NUL
    · have hc : cstr p = [] := (headD_eq_NUL_iff p).1 hh
      simp only [hh, ne_eq, not_true_eq_false, if_false, Prod.mk.injEq,
        Option.some.injEq] at h
      simp only [hc, if_true]
      rw [← h.1]
    · have hc : cstr p ≠ [] := fun hc => hh ((headD_eq_NUL_iff p).2 hc)
      simp only [hh, ne_eq, not_false_eq_true, if_true] at h
      simp only [hc, if_false]
      cases hr : E.realloc w (strlen p + 1 + (strlen ent.name + 1)) with
      | mk r w2 =>
        rw [hr] at h
        cases r with
        | none => simp at h
        | some c =>
          simp only [Prod.mk.injEq, Option.some.injEq] at h
          rw [← h.1, expand_buffer]
          simp [← List.append_assoc, List.dropLast_concat]

/-! ## One pass of `next` -/

theorem next_pass_stop {ω : Type} (E : Env ω) (it : dir_tree_iterator_t) (w w1 : ω)
    (s : Int) (hs : s ≠ 0) (h : E.rec_next w = (rec_next_t.stop s hs, w1)) :
    next_pass E it w = ⟨pass_t.ret s none, { it with state := s }, w1,
      [rec_call.next (rec_next_t.stop s hs)]⟩ := by
  unfold next_pass
  rw [h]

theorem next_pass_skip {ω : Type} (E : Env ω) (it : dir_tree_iterator_t) (w w1 : ω)
    (e : sqfs_dir_entry_t) (h : E.rec_next w = (rec_next_t.entry e, w1))
    (hsk : should_skip it e = true) :
    next_pass E it w = ⟨pass_t.again, it,
      if S_ISDIR e.mode then E.rec_ignore_subdir w1 else w1, pass_calls it e⟩ := by
  unfold next_pass pass_calls ignore_after
  rw [h]
  simp only [hsk, if_true, Bool.true_or, Bool.and_true]
  by_cases hd : S_ISDIR e.mode = true
  · simp [hd]
  · simp [hd]

theorem next_pass_alloc {ω : Type} (E : Env ω) (it : dir_tree_iterator_t) (w w1 w2 : ω)
    (e : sqfs_dir_entry_t) (h : E.rec_next w = (rec_next_t.entry e, w1))
    (hsk : should_skip it e = false) (hx : expand_path E it e w1 = (none, w2)) :
    next_pass E it w = ⟨pass_t.ret SQFS_ERROR_ALLOC none,
      { it with state := SQFS_ERROR_ALLOC }, w2, [rec_call.next (rec_next_t.entry e)]⟩ := by
  unfold next_pass
  rw [h]
  simp only [hsk, Bool.false_eq_true, if_false, hx]

theorem next_pass_keep {ω : Type} (E : Env ω) (it : dir_tree_iterator_t) (w w1 w2 : ω)
    (e e1 : sqfs_dir_entry_t) (h : E.rec_next w = (rec_next_t.entry e, w1))
    (hsk : should_skip it e = false) (hx : expand_path E it e w1 = (some e1, w2)) :
    next_pass E it w =
      ⟨if rejected it e then pass_t.again else pass_t.ret it.state (some (emitted it e)),
        it, if ignore_after it e then E.rec_ignore_subdir w2 else w2, pass_calls it e⟩ := by
  have he1 := expand_path_some E it e e1 w1 w2 hx
  have hem : apply_changes it e1 = emitted it e := by rw [he1]; rfl
  have hdir : S_ISDIR (emitted it e).mode = S_ISDIR e.mode := emitted_isdir it e
  unfold next_pass pass_calls ignore_after rejected pattern_rejects
  rw [h]
  simp only [hsk, Bool.false_eq_true, if_false, hx, hem, hdir, Bool.false_or]
  by_cases hd : S_ISDIR e.mode = true <;>
    by_cases hn : it.cfg.flags &&& DIR_SCAN_NO_DIR = 0 <;>
    by_cases hp : pattern_ret it (emitted it e) = 0 <;>
    simp [hd, hn, hp]

/-- The four ways a pass can go. -/
theorem next_pass_cases {ω : Type} (E : Env ω) (it : dir_tree_iterator_t) (w : ω) :
    (∃ s hs, (next_pass E it w).res = pass_t.ret s none
        ∧ (next_pass E it w).it = { it with state := s }
        ∧ (next_pass E it w).calls = [rec_call.next (rec_next_t.stop s hs)])
    ∨ (∃ e, rejected it e = true ∧ (next_pass E it w).res = pass_t.again
        ∧ (next_pass E it w).it = it ∧ (next_pass E it w).calls = pass_calls it e)
    ∨ (∃ e, should_skip it e = false
        ∧ (next_pass E it w).res = pass_t.ret SQFS_ERROR_ALLOC none
        ∧ (next_pass E it w).it = { it with state := SQFS_ERROR_ALLOC }
        ∧ (next_pass E it w).calls = [rec_call.next (rec_next_t.entry e)])
    ∨ (∃ e, rejected it e = false
        ∧ (next_pass E it w).res = pass_t.ret it.state (some (emitted it e))
        ∧ (next_pass E it w).it = it ∧ (next_pass E it w).calls = pass_calls it e) := by
  cases hn : E.rec_next w with
  | mk r0 w1 =>
    cases r0 with
    | stop s hs =>
      left
      exact ⟨s, hs, by rw [next_pass_stop E it w w1 s hs hn]; exact ⟨rfl, rfl, rfl⟩⟩
    | entry e =>
      right
      by_cases hsk : should_skip it e = true
      · left
        refine ⟨e, by simp [rejected, hsk], ?_⟩
        rw [next_pass_skip E it w w1 e hn hsk]
        exact ⟨rfl, rfl, rfl⟩
      · have hsk : should_skip it e = false := by simpa using hsk
        cases hx : expand_path E it e w1 with
        | mk o w2 =>
          cases o with
          | none =>
            right; left
            refine ⟨e, hsk, ?_⟩
            rw [next_pass_alloc E it w w1 w2 e hn hsk hx]
            exact ⟨rfl, rfl, rfl⟩
          | some e1 =>
            by_cases hr : rejected it e = true
            · left
              refine ⟨e, hr, ?_⟩
              rw [next_pass_keep E it w w1 w2 e e1 hn hsk hx]
              simp [hr]
            · have hr : rejected it e = false := by simpa using hr
              right; right
              refine ⟨e, hr, ?_⟩
              rw [next_pass_keep E it w w1 w2 e e1 hn hsk hx]
              simp [hr]

/-- The trace of a call of `next` that starts with no sticky status: some
entries are pulled and discarded, then the call ends on a non-zero status of the
underlying iterator, on a failed allocation, or on the entry it hands out. -/
theorem next_loop_trace {ω : Type} (E : Env ω) (fuel : Nat) (it : dir_tree_iterator_t)
    (w : ω) (r : next_ret ω) (h : next_loop E fuel it w = some r) :
    ∃ es : List sqfs_dir_entry_t, (∀ e ∈ es, rejected it e = true) ∧
      ((∃ s hs, r.calls = reject_trace it es ++ [rec_call.next (rec_next_t.stop s hs)]
          ∧ r.ret = s ∧ r.out = some none ∧ r.it = { it with state := s })
      ∨ (∃ e, should_skip it e = false
          ∧ r.calls = reject_trace it es ++ [rec_call.next (rec_next_t.entry e)]
          ∧ r.ret = SQFS_ERROR_ALLOC ∧ r.out = some none
          ∧ r.it = { it with state := SQFS_ERROR_ALLOC })
      ∨ (∃ e, rejected it e = false
          ∧ r.calls = reject_trace it es ++ pass_calls it e
          ∧ r.ret = it.state ∧ r.out = some (some (emitted it e)) ∧ r.it = it)) := by
  induction fuel generalizing w r with
  | zero => simp [next_loop] at h
  | succ n ih =>
    unfold next_loop at h
    rcases next_pass_cases E it w with ⟨s, hs, h1, h2, h3⟩ | ⟨e, he, h1, h2, h3⟩ |
      ⟨e, he, h1, h2, h3⟩ | ⟨e, he, h1, h2, h3⟩
    · simp only [h1, h2, h3, Option.some.injEq] at h
      subst h
      exact ⟨[], by simp, Or.inl ⟨s, hs, rfl, rfl, rfl, rfl⟩⟩
    · simp only [h1, h2, h3, Option.map_eq_some'] at h
      obtain ⟨r1, hr1, hr⟩ := h
      obtain ⟨es, hes, hcases⟩ := ih _ r1 hr1
      subst hr
      refine ⟨e :: es, ?_, ?_⟩
      · intro x hx
        rcases List.mem_cons.1 hx with hx | hx
        · rw [hx]; exact he
        · exact hes x hx
      · rcases hcases with ⟨s, hs, c1, c2, c3, c4⟩ | ⟨e2, he2, c1, c2, c3, c4⟩ |
          ⟨e2, he2, c1, c2, c3, c4⟩
        · exact Or.inl ⟨s, hs, by simp [c1, reject_trace], c2, c3, c4⟩
        · exact Or.inr (Or.inl ⟨e2, he2, by simp [c1, reject_trace], c2, c3, c4⟩)
        · exact Or.inr (Or.inr ⟨e2, he2, by simp [c1, reject_trace], c2, c3, c4⟩)
    · simp only [h1, h2, h3, Option.some.injEq] at h
      subst h
      exact ⟨[], by simp, Or.inr (Or.inl ⟨e, he, rfl, rfl, rfl, rfl⟩)⟩
    · simp only [h1, h2, h3, Option.some.injEq] at h
      subst h
      exact ⟨[], by simp, Or.inr (Or.inr ⟨e, he, rfl, rfl, rfl, rfl⟩)⟩

/-! ## Calls of `next` -/

/-- A call of `next` on an iterator with a sticky status. -/
theorem next_of_sticky {ω : Type} (E : Env ω) (fuel : Nat) (it : dir_tree_iterator_t)
    (w : ω) (h : it.state ≠ 0) : next E fuel it w = some ⟨it.state, none, it, w, []⟩ := by
  unfold next
  rw [if_pos h]

/-- A call of `next` on an iterator without a sticky status. -/
theorem next_of_active {ω : Type} (E : Env ω) (fuel : Nat) (it : dir_tree_iterator_t)
    (w : ω) (h : it.state = 0) : next E fuel it w = next_loop E fuel it w := by
  unfold next
  rw [if_neg (by simpa using h)]

/-- How a call of `next` can end. -/
theorem next_cases {ω : Type} (E : Env ω) (fuel : Nat) (it : dir_tree_iterator_t)
    (w : ω) (r : next_ret ω) (h : next E fuel it w = some r) :
    (it.state ≠ 0 ∧ r = ⟨it.state, none, it, w, []⟩)
    ∨ (it.state = 0 ∧ ∃ es : List sqfs_dir_entry_t, (∀ e ∈ es, rejected it e = true) ∧
      ((∃ s hs, r.calls = reject_trace it es ++ [rec_call.next (rec_next_t.stop s hs)]
          ∧ r.ret = s ∧ r.out = some none ∧ r.it = { it with state := s })
      ∨ (∃ e, should_skip it e = false
          ∧ r.calls = reject_trace it es ++ [rec_call.next (rec_next_t.entry e)]
          ∧ r.ret = SQFS_ERROR_ALLOC ∧ r.out = some none
          ∧ r.it = { it with state := SQFS_ERROR_ALLOC })
      ∨ (∃ e, rejected it e = false
          ∧ r.calls = reject_trace it es ++ pass_calls it e
          ∧ r.ret = 0 ∧ r.out = some (some (emitted it e)) ∧ r.it = it))) := by
  by_cases hs : it.state = 0
  · right
    rw [next_of_active E fuel it w hs] at h
    obtain ⟨es, hes, hc⟩ := next_loop_trace E fuel it w r h
    refine ⟨hs, es, hes, ?_⟩
    rcases hc with hc | hc | ⟨e, he, c1, c2, c3, c4⟩
    · exact Or.inl hc
    · exact Or.inr (Or.inl hc)
    · exact Or.inr (Or.inr ⟨e, he, c1, by rw [c2, hs], c3, c4⟩)
  · left
    rw [next_of_sticky E fuel it w hs] at h
    exact ⟨hs, (Option.some.inj h).symm⟩

/-- After a call that returned a non-zero status the iterator holds that status. -/
theorem next_state_of_nonzero {ω : Type} (E : Env ω) (fuel : Nat)
    (it : dir_tree_iterator_t) (w : ω) (r : next_ret ω) (h : next E fuel it w = some r)
    (hs : r.ret ≠ 0) : r.it.state = r.ret := by
  rcases next_cases E fuel it w r h with ⟨_, hr⟩ | ⟨_, es, _, hc⟩
  · rw [hr]
  · rcases hc with ⟨s, _, _, c2, _, c4⟩ | ⟨e, _, _, c2, _, c4⟩ | ⟨e, _, _, c2, _, _⟩
    · rw [c4, c2]
    · rw [c4, c2]
    · exact absurd c2 hs

/-- Later calls on an iterator with a sticky status all give the same result. -/
theorem later_call_of_sticky {ω : Type} (E : Env ω) (fuel k : Nat)
    (it : dir_tree_iterator_t) (w : ω) (h : it.state ≠ 0) :
    later_call E fuel k it w = some ⟨it.state, none, it, w, []⟩ := by
  induction k with
  | zero => exact next_of_sticky E fuel it w h
  | succ n ih =>
    unfold later_call
    rw [next_of_sticky E fuel it w h]
    exact ih

/-- C1. Sticky terminal status: once a call of `next` has returned a non-zero
status `s`, the iterator stores `s`, and every later call, whatever its fuel and
however many calls came before it, returns `s`, stores nothing to `*out`, makes
no call on the underlying iterator and leaves the iterator and the world as they
were. -/
theorem next_sticky_status {ω : Type} (E : Env ω) (fuel : Nat) (it : dir_tree_iterator_t)
    (w : ω) (r : next_ret ω) (h : next E fuel it w = some r) (hs : r.ret ≠ 0) :
    r.it.state = r.ret ∧
      ∀ k fuel2 : Nat, later_call E fuel2 k r.it r.world
        = some ⟨r.ret, none, r.it, r.world, []⟩ := by
  have hst := next_state_of_nonzero E fuel it w r h hs
  refine ⟨hst, fun k fuel2 => ?_⟩
  have := later_call_of_sticky E fuel2 k r.it r.world (by rw [hst]; exact hs)
  rw [hst] at this
  exact this

/-- C1 at an exhausted listing: the first call returns 1, and so does the call
made after three more calls, without any call on the underlying iterator. -/
theorem next_sticky_status_witness :
    later_call sim_env 0 3 ⟨mk_cfg 0, 1⟩ ⟨[], none, 1, []⟩
      = some ⟨1, none, ⟨mk_cfg 0, 1⟩, ⟨[], none, 1, []⟩, []⟩ :=
  (next_sticky_status sim_env 1 ⟨mk_cfg 0, 0⟩ (mk_world [])
    ⟨1, some none, ⟨mk_cfg 0, 1⟩, ⟨[], none, 1, []⟩,
      [rec_call.next (rec_next_t.stop 1 (by decide))]⟩ rfl (by decide)).2 3 0

/-- C10. Entry and status are mutually exclusive: a call of `next` returns 0
exactly when it hands an entry to the caller; with a non-zero status it stores
nothing to `*out` (the sticky return) or stores NULL. -/
theorem next_entry_iff_ongoing {ω : Type} (E : Env ω) (fuel : Nat)
    (it : dir_tree_iterator_t) (w : ω) (r : next_ret ω) (h : next E fuel it w = some r) :
    (r.ret = 0 ↔ ∃ e, r.out = some (some e))
      ∧ (r.ret ≠ 0 → r.out = none ∨ r.out = some none) := by
  rcases next_cases E fuel it w r h with ⟨hs, hr⟩ | ⟨_, es, _, hc⟩
  · subst hr
    simp [hs]
  · rcases hc with ⟨s, hs, _, c2, c3, _⟩ | ⟨e, _, _, c2, c3, _⟩ | ⟨e, _, _, c2, c3, _⟩
    · simp [c2, c3, hs]
    · simp [c2, c3, SQFS_ERROR_ALLOC]
    · simp [c2, c3]

/-- C10 on a listing of one file: the call returns 0 and hands the file out. -/
theorem next_entry_iff_ongoing_witness :
    ((0 : Int) = 0 ↔ ∃ e, some (some (mk_entry "f" S_IFREG)) = some (some e))
      ∧ ((0 : Int) ≠ 0 → some (some (mk_entry "f" S_IFREG)) = none
          ∨ some (some (mk_entry "f" S_IFREG)) = some none) :=
  next_entry_iff_ongoing sim_env 1 ⟨mk_cfg 0xF00, 0⟩ (mk_world [mk_entry "f" S_IFREG])
    ⟨0, some (some (mk_entry "f" S_IFREG)), ⟨mk_cfg 0xF00, 0⟩,
      ⟨[], some (mk_entry "f" S_IFREG), 1, []⟩,
      [rec_call.next (rec_next_t.entry (mk_entry "f" S_IFREG))]⟩ rfl

/-! ## Traces -/

theorem pulled_pass_calls (it : dir_tree_iterator_t) (e : sqfs_dir_entry_t)
    (t : List rec_call) : pulled (pass_calls it e ++ t) = e :: pulled t := by
  unfold pass_calls
  by_cases h : ignore_after it e = true
  · simp [h, pulled]
  · simp [h, pulled]

theorem pulled_reject_trace (it : dir_tree_iterator_t) (es : List sqfs_dir_entry_t)
    (t : List rec_call) : pulled (reject_trace it es ++ t) = es ++ pulled t := by
  induction es with
  | nil => simp [reject_trace]
  | cons e es ih =>
    simp only [reject_trace, List.append_assoc, pulled_pass_calls, ih, List.cons_append]

/-! ## Type exclusion -/

theorem type_excluded_congr (flags m1 m2 : Nat) (h : m1 &&& S_IFMT = m2 &&& S_IFMT) :
    type_excluded flags m1 = type_excluded flags m2 := by
  unfold type_excluded
  rw [h]

/-- An entry that the policy keeps is not of an excluded type. -/
theorem type_excluded_of_kept (it : dir_tree_iterator_t) (e : sqfs_dir_entry_t)
    (h : rejected it e = false) : type_excluded it.cfg.flags e.mode = false := by
  unfold rejected at h
  simp only [Bool.or_eq_false_iff, Bool.and_eq_false_iff] at h
  obtain ⟨⟨hsk, hdir⟩, _⟩ := h
  unfold should_skip at hsk
  unfold S_ISDIR at hdir
  unfold type_excluded
  split at hsk
  · exact absurd hsk (by simp)
  · simp only [decide_eq_false_iff_not, not_not] at hsk
    simp only [S_IFSOCK, S_IFLNK, S_IFREG, S_IFBLK, S_IFDIR, S_IFCHR, S_IFIFO,
      DIR_SCAN_NO_SOCK, DIR_SCAN_NO_SLINK, DIR_SCAN_NO_FILE, DIR_SCAN_NO_BLK,
      DIR_SCAN_NO_DIR, DIR_SCAN_NO_CHR, DIR_SCAN_NO_FIFO] at hsk hdir ⊢
    split_ifs at hsk
    all_goals simp_all
    all_goals tauto

/-- The entry handed out by a call of `next` is the emitted form of the entry
pulled last, and the policy keeps that entry. -/
theorem next_emits {ω : Type} (E : Env ω) (fuel : Nat) (it : dir_tree_iterator_t)
    (w : ω) (r : next_ret ω) (o : sqfs_dir_entry_t) (h : next E fuel it w = some r)
    (ho : r.out = some (some o)) :
    ∃ es e, (∀ x ∈ es, rejected it x = true) ∧ rejected it e = false
      ∧ r.calls = reject_trace it es ++ pass_calls it e ∧ o = emitted it e
      ∧ r.ret = 0 ∧ r.it = it ∧ it.state = 0 := by
  rcases next_cases E fuel it w r h with ⟨_, hr⟩ | ⟨h0, es, hes, hc⟩
  · subst hr
    simp at ho
  · rcases hc with ⟨s, _, _, _, c3, _⟩ | ⟨e, _, _, _, c3, _⟩ | ⟨e, he, c1, c2, c3, c4⟩
    · rw [c3] at ho; simp at ho
    · rw [c3] at ho; simp at ho
    · rw [c3] at ho
      simp only [Option.some.injEq] at ho
      exact ⟨es, e, hes, he, c1, ho.symm, c2, c4, h0⟩

/-- C2. Excluded types are never emitted: an entry handed out by `next` is the
emitted form of an entry pulled in that call whose type is not excluded, its own
type is not excluded, and it is neither an entry of an excluded type nor the
prefixed and normalised form of one. -/
theorem excluded_types_never_emitted {ω : Type} (E : Env ω) (fuel : Nat)
    (it : dir_tree_iterator_t) (w : ω) (r : next_ret ω) (o : sqfs_dir_entry_t)
    (h : next E fuel it w = some r) (ho : r.out = some (some o)) :
    type_excluded it.cfg.flags o.mode = false
      ∧ (∃ e, e ∈ pulled r.calls ∧ type_excluded it.cfg.flags e.mode = false
          ∧ o = emitted it e)
      ∧ (∀ e, type_excluded it.cfg.flags e.mode = true → o ≠ e ∧ o ≠ emitted it e) := by
  obtain ⟨es, e, _, he, hc, hoe, _⟩ := next_emits E fuel it w r o h ho
  have hte : type_excluded it.cfg.flags e.mode = false := type_excluded_of_kept it e he
  have hto : type_excluded it.cfg.flags o.mode = false := by
    rw [hoe, type_excluded_congr _ _ _ (emitted_mode_ifmt it e)]
    exact hte
  refine ⟨hto, ⟨e, ?_, hte, hoe⟩, ?_⟩
  · have hp := pulled_pass_calls it e []
    rw [List.append_nil] at hp
    rw [hc, pulled_reject_trace, hp]
    simp
  · intro x hx
    constructor
    · intro hox
      rw [hox, hx] at hto
      exact absurd hto (by simp)
    · intro hox
      rw [hox, type_excluded_congr _ _ _ (emitted_mode_ifmt it x), hx] at hto
      exact absurd hto (by simp)

/-- C2 on the listing `link`, `f` under `DIR_SCAN_NO_SLINK`: the call pulls both
entries and hands out the file. -/
theorem excluded_types_never_emitted_witness :
    type_excluded (mk_cfg 0xF02).flags (mk_entry "f" S_IFREG).mode = false
      ∧ (∃ e, e ∈ pulled [rec_call.next (rec_next_t.entry (mk_entry "link" S_IFLNK)),
            rec_call.next (rec_next_t.entry (mk_entry "f" S_IFREG))]
          ∧ type_excluded (mk_cfg 0xF02).flags e.mode = false
          ∧ mk_entry "f" S_IFREG = emitted ⟨mk_cfg 0xF02, 0⟩ e)
      ∧ (∀ e, type_excluded (mk_cfg 0xF02).flags e.mode = true →
          mk_entry "f" S_IFREG ≠ e ∧ mk_entry "f" S_IFREG ≠ emitted ⟨mk_cfg 0xF02, 0⟩ e) :=
  excluded_types_never_emitted sim_env 2 ⟨mk_cfg 0xF02, 0⟩
    (mk_world [mk_entry "link" S_IFLNK, mk_entry "f" S_IFREG])
    ⟨0, some (some (mk_entry "f" S_IFREG)), ⟨mk_cfg 0xF02, 0⟩,
      ⟨[], some (mk_entry "f" S_IFREG), 1, []⟩,
      [rec_call.next (rec_next_t.entry (mk_entry "link" S_IFLNK)),
        rec_call.next (rec_next_t.entry (mk_entry "f" S_IFREG))]⟩
    (mk_entry "f" S_IFREG) rfl rfl

theorem pass_calls_tail (it : dir_tree_iterator_t) (e : sqfs_dir_entry_t) :
    (pass_calls it e).tail = if ignore_after it e then [rec_call.ignore_subdir] else [] := by
  unfold pass_calls
  rfl

theorem after_pull_pass_calls (P : sqfs_dir_entry_t → List rec_call → Bool)
    (it : dir_tree_iterator_t) (e : sqfs_dir_entry_t) (t : List rec_call) :
    after_pull P (pass_calls it e ++ t)
      = (P e ((pass_calls it e).tail ++ t) && after_pull P t) := by
  unfold pass_calls
  by_cases h : ignore_after it e = true
  · simp [h, after_pull]
  · simp [h, after_pull]

theorem starts_with_next_pass_calls (it : dir_tree_iterator_t) (e : sqfs_dir_entry_t)
    (t : List rec_call) : starts_with_next (pass_calls it e ++ t) = true := by
  unfold pass_calls
  rfl

theorem starts_with_next_reject_trace (it : dir_tree_iterator_t)
    (es : List sqfs_dir_entry_t) (t : List rec_call) (ht : starts_with_next t = true) :
    starts_with_next (reject_trace it es ++ t) = true := by
  cases es with
  | nil => simpa [reject_trace] using ht
  | cons e es =>
    simp only [reject_trace, List.append_assoc]
    exact starts_with_next_pass_calls it e _

/-- A property of the pulls holds along the discarded entries when it holds of
each of them, whatever pull follows, and of the end of the trace. -/
theorem after_pull_reject_trace (P : sqfs_dir_entry_t → List rec_call → Bool)
    (it : dir_tree_iterator_t) (es : List sqfs_dir_entry_t) (t : List rec_call)
    (ht : starts_with_next t = true)
    (hes : ∀ e ∈ es, ∀ u, starts_with_next u = true →
      P e ((pass_calls it e).tail ++ u) = true)
    (hfin : after_pull P t = true) :
    after_pull P (reject_trace it es ++ t) = true := by
  induction es with
  | nil => simpa [reject_trace] using hfin
  | cons e es ih =>
    simp only [reject_trace, List.append_assoc]
    rw [after_pull_pass_calls, Bool.and_eq_true]
    refine ⟨?_, ?_⟩
    · exact hes e (List.mem_cons_self e es) _ (starts_with_next_reject_trace it es t ht)
    · exact ih (fun x hx => hes x (List.mem_cons_of_mem e hx))

theorem starts_with_ignore_of_next (u : List rec_call) (h : starts_with_next u = true) :
    starts_with_ignore u = false := by
  cases u with
  | nil => rfl
  | cons c u =>
    cases c with
    | next r => rfl
    | ignore_subdir => simp [starts_with_next] at h

/-- What follows the pull of an entry that got through `expand_path`:
`ignore_subdir` exactly when its subtree is given up. -/
theorem starts_with_ignore_tail (it : dir_tree_iterator_t) (e : sqfs_dir_entry_t)
    (u : List rec_call) (h : starts_with_ignore u = false) :
    starts_with_ignore ((pass_calls it e).tail ++ u) = ignore_after it e := by
  rw [pass_calls_tail]
  by_cases hi : ignore_after it e = true
  · simp [hi, starts_with_ignore]
  · simp [hi, h]

/-- A directory is never skipped for its type: only as a mount point. -/
theorem should_skip_dir (it : dir_tree_iterator_t) (d : sqfs_dir_entry_t)
    (hd : S_ISDIR d.mode = true) : should_skip it d = mount_skipped it d := by
  unfold S_ISDIR at hd
  have hm : d.mode &&& S_IFMT = S_IFDIR := by simpa using hd
  unfold should_skip mount_skipped
  by_cases hc : it.cfg.flags &&& DIR_SCAN_ONE_FILESYSTEM ≠ 0
      ∧ d.flags &&& SQFS_DIR_ENTRY_FLAG_MOUNT_POINT ≠ 0
  · rw [if_pos hc]
    simp [hc]
  · rw [if_neg hc]
    simp only [hm, S_IFDIR, S_IFSOCK, S_IFLNK, S_IFREG, S_IFBLK, S_IFCHR, S_IFIFO]
    simp [hc]

/-- A property of the pulls holds of the trace of a call when it holds of every
discarded entry, whatever pull follows, of the entry handed out, and of an entry
whose allocation failed. -/
theorem next_after_pull {ω : Type} (E : Env ω) (fuel : Nat) (it : dir_tree_iterator_t)
    (w : ω) (r : next_ret ω) (P : sqfs_dir_entry_t → List rec_call → Bool)
    (h : next E fuel it w = some r)
    (hrej : ∀ e, rejected it e = true → ∀ u, starts_with_next u = true →
      P e ((pass_calls it e).tail ++ u) = true)
    (hemit : ∀ e, rejected it e = false → P e (pass_calls it e).tail = true)
    (halloc : r.ret = SQFS_ERROR_ALLOC → ∀ e, should_skip it e = false → P e [] = true) :
    after_pull P r.calls = true := by
  rcases next_cases E fuel it w r h with ⟨_, hr⟩ | ⟨_, es, hes, hc⟩
  · subst hr
    rfl
  · rcases hc with ⟨s, hs, c1, _⟩ | ⟨e, he, c1, c2, _⟩ | ⟨e, he, c1, _⟩
    · rw [c1]
      exact after_pull_reject_trace P it es _ rfl (fun e he u hu => hrej e (hes e he) u hu) rfl
    · rw [c1]
      refine after_pull_reject_trace P it es _ rfl
        (fun e he u hu => hrej e (hes e he) u hu) ?_
      simp only [after_pull, Bool.and_true]
      exact halloc c2 e he
    · rw [c1]
      refine after_pull_reject_trace P it es _ (starts_with_next_pass_calls it e [])
        (fun e he u hu => hrej e (hes e he) u hu) ?_
      have := after_pull_pass_calls P it e []
      rw [List.append_nil] at this
      rw [this, Bool.and_eq_true, List.append_nil]
      exact ⟨hemit e he, rfl⟩

/-- How `ignore_subdir` follows the pulls of a call that does not end on a failed
allocation: each pulled directory is directly followed by it exactly when the
directory is skipped as a mount point or `DIR_SCAN_NO_RECURSION` is set. -/
theorem next_ignore_iff {ω : Type} (E : Env ω) (fuel : Nat) (it : dir_tree_iterator_t)
    (w : ω) (r : next_ret ω) (h : next E fuel it w = some r)
    (ha : r.ret ≠ SQFS_ERROR_ALLOC) :
    after_pull (ignore_iff (fun d => mount_skipped it d
      || decide (it.cfg.flags &&& DIR_SCAN_NO_RECURSION ≠ 0))) r.calls = true := by
  have key : ∀ e u, starts_with_ignore u = false →
      ignore_iff (fun d => mount_skipped it d
        || decide (it.cfg.flags &&& DIR_SCAN_NO_RECURSION ≠ 0)) e
        ((pass_calls it e).tail ++ u) = true := by
    intro e u hu
    unfold ignore_iff
    rw [starts_with_ignore_tail it e u hu]
    by_cases hd : S_ISDIR e.mode = true
    · simp [ignore_after, hd, should_skip_dir it e hd]
    · simp [hd]
  refine next_after_pull E fuel it w r _ h
    (fun e _ u hu => key e u (starts_with_ignore_of_next u hu)) (fun e _ => ?_)
    (fun hr => absurd hr ha)
  have := key e [] rfl
  rwa [List.append_nil] at this

/-- The entry handed out under `DIR_SCAN_NO_DIR` is not a directory. -/
theorem not_dir_of_kept (it : dir_tree_iterator_t) (e : sqfs_dir_entry_t)
    (hnd : it.cfg.flags &&& DIR_SCAN_NO_DIR ≠ 0) (h : rejected it e = false) :
    S_ISDIR e.mode = false := by
  unfold rejected at h
  simp only [Bool.or_eq_false_iff, Bool.and_eq_false_iff, decide_eq_false_iff_not] at h
  rcases h.1.2 with h1 | h1
  · exact h1
  · exact absurd hnd h1

/-- C3, amended. Under `DIR_SCAN_NO_DIR` no directory is handed out, and in a
call that does not return `SQFS_ERROR_ALLOC` a pulled directory is directly
followed by `ignore_subdir` exactly when it is skipped as a mount point or
`DIR_SCAN_NO_RECURSION` is set; an excluded directory is otherwise discarded
without `ignore_subdir`. -/
theorem no_dir_ignore_subdir {ω : Type} (E : Env ω) (fuel : Nat) (it : dir_tree_iterator_t)
    (w : ω) (r : next_ret ω) (h : next E fuel it w = some r)
    (hnd : it.cfg.flags &&& DIR_SCAN_NO_DIR ≠ 0) :
    (∀ o, r.out = some (some o) → S_ISDIR o.mode = false)
      ∧ (r.ret ≠ SQFS_ERROR_ALLOC →
          after_pull (ignore_iff (fun d => mount_skipped it d
            || decide (it.cfg.flags &&& DIR_SCAN_NO_RECURSION ≠ 0))) r.calls = true) := by
  refine ⟨fun o ho => ?_, fun ha => next_ignore_iff E fuel it w r h ha⟩
  obtain ⟨es, e, _, he, _, hoe, _⟩ := next_emits E fuel it w r o h ho
  rw [hoe, emitted_isdir]
  exact not_dir_of_kept it e hnd he

/-- C3, amended, on the listing `sub`, `sub/a`, `f` under `DIR_SCAN_NO_DIR` and
`DIR_SCAN_NO_RECURSION`: the directory is followed by `ignore_subdir` and the call
hands out `f`. -/
theorem no_dir_ignore_subdir_witness :
    (∀ o, some (some (mk_entry "f" S_IFREG)) = some (some o) → S_ISDIR o.mode = false)
      ∧ ((0 : Int) ≠ SQFS_ERROR_ALLOC →
          after_pull (ignore_iff (fun d => mount_skipped ⟨mk_cfg 0x2F10, 0⟩ d
            || decide ((mk_cfg 0x2F10).flags &&& DIR_SCAN_NO_RECURSION ≠ 0)))
            [rec_call.next (rec_next_t.entry (mk_entry "sub" S_IFDIR)),
              rec_call.ignore_subdir,
              rec_call.next (rec_next_t.entry (mk_entry "f" S_IFREG))] = true) :=
  no_dir_ignore_subdir sim_env 2 ⟨mk_cfg 0x2F10, 0⟩
    (mk_world [mk_entry "sub" S_IFDIR, mk_entry "sub/a" S_IFREG, mk_entry "f" S_IFREG])
    ⟨0, some (some (mk_entry "f" S_IFREG)), ⟨mk_cfg 0x2F10, 0⟩,
      ⟨[], some (mk_entry "f" S_IFREG), 1, []⟩,
      [rec_call.next (rec_next_t.entry (mk_entry "sub" S_IFDIR)), rec_call.ignore_subdir,
        rec_call.next (rec_next_t.entry (mk_entry "f" S_IFREG))]⟩ rfl (by decide)

/-- C3 as stated fails: under `DIR_SCAN_NO_DIR` alone, on the listing `sub`,
`sub/a`, the call pulls the directory, does not call `ignore_subdir`, pulls the
file below it and hands that file out. -/
theorem no_dir_ignore_subdir_counterexample :
    (mk_cfg 0xF10).flags &&& DIR_SCAN_NO_DIR ≠ 0
      ∧ (next sim_env 2 ⟨mk_cfg 0xF10, 0⟩
          (mk_world [mk_entry "sub" S_IFDIR, mk_entry "sub/a" S_IFREG])).map
          (fun r => (r.ret, r.out, pulled r.calls, r.calls.length,
            after_pull (ignore_iff (fun _ => true)) r.calls))
        = some (0, some (some (mk_entry "sub/a" S_IFREG)),
            [mk_entry "sub" S_IFDIR, mk_entry "sub/a" S_IFREG], 2, false) := by
  decide

/-- A directory that the policy does not discard: neither a skipped mount point,
nor excluded by `DIR_SCAN_NO_DIR`, nor rejected by the pattern. -/
theorem rejected_dir (it : dir_tree_iterator_t) (d : sqfs_dir_entry_t)
    (hd : S_ISDIR d.mode = true) :
    rejected it d = (mount_skipped it d
      || decide (it.cfg.flags &&& DIR_SCAN_NO_DIR ≠ 0) || pattern_rejects it d) := by
  unfold rejected
  rw [should_skip_dir it d hd, hd, Bool.true_and]

/-- In a call that does not return `SQFS_ERROR_ALLOC`, a pulled entry that the
policy keeps is the entry handed out. -/
theorem next_kept_is_emitted {ω : Type} (E : Env ω) (fuel : Nat)
    (it : dir_tree_iterator_t) (w : ω) (r : next_ret ω) (h : next E fuel it w = some r)
    (ha : r.ret ≠ SQFS_ERROR_ALLOC) (d : sqfs_dir_entry_t) (hd : d ∈ pulled r.calls)
    (hk : rejected it d = false) : r.ret = 0 ∧ r.out = some (some (emitted it d)) := by
  have hnot : ∀ es : List sqfs_dir_entry_t, (∀ e ∈ es, rejected it e = true) → d ∉ es := by
    intro es hes hmem
    rw [hes d hmem] at hk
    exact absurd hk (by simp)
  rcases next_cases E fuel it w r h with ⟨_, hr⟩ | ⟨_, es, hes, hc⟩
  · subst hr
    simp [pulled] at hd
  · rcases hc with ⟨s, hs, c1, _⟩ | ⟨e, _, _, c2, _⟩ | ⟨e, he, c1, c2, c3, _⟩
    · rw [c1, pulled_reject_trace] at hd
      simp only [pulled, List.append_nil] at hd
      exact absurd hd (hnot es hes)
    · exact absurd c2 ha
    · have hp := pulled_pass_calls it e []
      rw [List.append_nil] at hp
      rw [c1, pulled_reject_trace, hp, List.mem_append] at hd
      simp only [pulled, List.mem_singleton] at hd
      rcases hd with hd | hd
      · exact absurd hd (hnot es hes)
      · rw [hd]
        exact ⟨c2, c3⟩

/-- A call of `next` on an iterator without a sticky status, when the underlying
iterator has an entry that gets through `expand_path` and that the policy keeps:
one pass is enough, and the call hands the entry out. -/
theorem next_at_kept {ω : Type} (E : Env ω) (fuel : Nat) (it : dir_tree_iterator_t)
    (w w1 w2 : ω) (e e1 : sqfs_dir_entry_t) (hst : it.state = 0)
    (hn : E.rec_next w = (rec_next_t.entry e, w1))
    (hx : expand_path E it e w1 = (some e1, w2)) (hr : rejected it e = false) :
    next E (fuel + 1) it w
      = some ⟨0, some (some (emitted it e)), it,
          if ignore_after it e then E.rec_ignore_subdir w2 else w2, pass_calls it e⟩ := by
  have hsk : should_skip it e = false := by
    unfold rejected at hr
    simp only [Bool.or_eq_false_iff] at hr
    exact hr.1.1
  rw [next_of_active E _ it w hst]
  unfold next_loop
  rw [next_pass_keep E it w w1 w2 e e1 hn hsk hx]
  simp only [hr, Bool.false_eq_true, if_false, hst]

/-- C4, amended. Under `DIR_SCAN_NO_RECURSION`, in a call of `next` that does not
return `SQFS_ERROR_ALLOC`, every pulled directory is directly followed by
`ignore_subdir`, and a pulled directory that is not a skipped mount point, not
excluded by `DIR_SCAN_NO_DIR` and not rejected by the pattern is handed out by
that call.  When such a directory is the next entry of the underlying iterator
and the reallocation succeeds, `next` returns with status 0, having pulled it,
called `ignore_subdir` and handed it out. -/
theorem no_recursion_ignore_and_emit {ω : Type} (E : Env ω) (fuel : Nat)
    (it : dir_tree_iterator_t) (w : ω) (r : next_ret ω) (h : next E fuel it w = some r)
    (hnr : it.cfg.flags &&& DIR_SCAN_NO_RECURSION ≠ 0) (ha : r.ret ≠ SQFS_ERROR_ALLOC) :
    after_pull (ignore_iff (fun _ => true)) r.calls = true
      ∧ (∀ d ∈ pulled r.calls, S_ISDIR d.mode = true → mount_skipped it d = false →
          it.cfg.flags &&& DIR_SCAN_NO_DIR = 0 → pattern_rejects it d = false →
          r.ret = 0 ∧ r.out = some (some (emitted it d)))
      ∧ (∀ (w0 w1 w2 : ω) (d e1 : sqfs_dir_entry_t) (f : Nat), it.state = 0 →
          E.rec_next w0 = (rec_next_t.entry d, w1) →
          expand_path E it d w1 = (some e1, w2) →
          S_ISDIR d.mode = true → mount_skipped it d = false →
          it.cfg.flags &&& DIR_SCAN_NO_DIR = 0 → pattern_rejects it d = false →
          next E (f + 1) it w0
            = some ⟨0, some (some (emitted it d)), it, E.rec_ignore_subdir w2,
                [rec_call.next (rec_next_t.entry d), rec_call.ignore_subdir]⟩) := by
  refine ⟨?_, ?_, ?_⟩
  · have hw : (fun d => mount_skipped it d
        || decide (it.cfg.flags &&& DIR_SCAN_NO_RECURSION ≠ 0)) = fun _ => true := by
      funext d
      simp [hnr]
    have := next_ignore_iff E fuel it w r h ha
    rwa [hw] at this
  · intro d hd hdir hm hnd hp
    refine next_kept_is_emitted E fuel it w r h ha d hd ?_
    rw [rejected_dir it d hdir, hm, hp]
    simp [hnd]
  · intro w0 w1 w2 d e1 f hst hn hx hdir hm hnd hp
    have hr : rejected it d = false := by
      rw [rejected_dir it d hdir, hm, hp]
      simp [hnd]
    have hi : ignore_after it d = true := by
      simp [ignore_after, hdir, hnr]
    rw [next_at_kept E f it w0 w1 w2 d e1 hst hn hx hr]
    simp [hi, pass_calls]

/-- C4, amended, on the listing `sub`, `sub/a` under `DIR_SCAN_NO_RECURSION`: the
call pulls the directory, calls `ignore_subdir` and hands the directory out. -/
theorem no_recursion_ignore_and_emit_witness :
    after_pull (ignore_iff (fun _ => true))
        [rec_call.next (rec_next_t.entry (mk_entry "sub" S_IFDIR)),
          rec_call.ignore_subdir] = true
      ∧ (∀ d ∈ pulled [rec_call.next (rec_next_t.entry (mk_entry "sub" S_IFDIR)),
            rec_call.ignore_subdir],
          S_ISDIR d.mode = true → mount_skipped ⟨mk_cfg 0x2F00, 0⟩ d = false →
          (mk_cfg 0x2F00).flags &&& DIR_SCAN_NO_DIR = 0 →
          pattern_rejects ⟨mk_cfg 0x2F00, 0⟩ d = false →
          (0 : Int) = 0 ∧ some (some (mk_entry "sub" S_IFDIR))
            = some (some (emitted ⟨mk_cfg 0x2F00, 0⟩ d))) :=
  (fun t => ⟨t.1, t.2.1⟩)
    (no_recursion_ignore_and_emit sim_env 1 ⟨mk_cfg 0x2F00, 0⟩
      (mk_world [mk_entry "sub" S_IFDIR, mk_entry "sub/a" S_IFREG])
      ⟨0, some (some (mk_entry "sub" S_IFDIR)), ⟨mk_cfg 0x2F00, 0⟩,
        ⟨[], some (mk_entry "sub" S_IFDIR), 1, []⟩,
        [rec_call.next (rec_next_t.entry (mk_entry "sub" S_IFDIR)), rec_call.ignore_subdir]⟩
      rfl (by decide) (by decide))

/-- C4 as stated fails: under `DIR_SCAN_NO_RECURSION` with prefix `p`, when the
reallocation of `expand_path` fails for the directory `sub`, which no rule of the
policy discards, the call returns `SQFS_ERROR_ALLOC`, hands out nothing and has
not called `ignore_subdir`. -/
theorem no_recursion_ignore_and_emit_counterexample :
    (mk_cfg 0x2F00).flags &&& DIR_SCAN_NO_RECURSION ≠ 0
      ∧ rejected ⟨{ mk_cfg 0x2F00 with pfx := some ['p'] }, 0⟩ (mk_entry "sub" S_IFDIR) = false
      ∧ (next sim_env 1 ⟨{ mk_cfg 0x2F00 with pfx := some ['p'] }, 0⟩
          ⟨[mk_entry "sub" S_IFDIR, mk_entry "sub/a" S_IFREG], none, 1, [none]⟩).map
          (fun r => (r.ret, r.out, pulled r.calls, r.calls.length,
            after_pull (ignore_iff (fun _ => true)) r.calls))
        = some (SQFS_ERROR_ALLOC, some none, [mk_entry "sub" S_IFDIR], 1, false) := by
  decide

/-! ## Attribute normalisation and path prefixing -/

/-- C5. Attribute normalisation: the entry that `apply_changes` leaves has the uid
of the policy when `DIR_SCAN_KEEP_UID` is clear and the uid of the entry when it
is set, likewise for gid and mtime; its low 12 mode bits are those of
`def_mode & 07777` when `DIR_SCAN_KEEP_MODE` is clear and those of the entry when
it is set; the bits of mode above the low 12 are always those of the entry.  The
emitted form of an entry has the attributes `apply_changes` gives the entry. -/
theorem apply_changes_attributes (it : dir_tree_iterator_t) (e : sqfs_dir_entry_t) :
    (apply_changes it e).uid
        = (if it.cfg.flags &&& DIR_SCAN_KEEP_UID ≠ 0 then e.uid else it.cfg.def_uid)
      ∧ (apply_changes it e).gid
        = (if it.cfg.flags &&& DIR_SCAN_KEEP_GID ≠ 0 then e.gid else it.cfg.def_gid)
      ∧ (apply_changes it e).mtime
        = (if it.cfg.flags &&& DIR_SCAN_KEEP_TIME ≠ 0 then e.mtime else it.cfg.def_mtime)
      ∧ (apply_changes it e).mode &&& 0o7777
        = (if it.cfg.flags &&& DIR_SCAN_KEEP_MODE ≠ 0 then e.mode &&& 0o7777
            else it.cfg.def_mode &&& 0o7777)
      ∧ (apply_changes it e).mode >>> 12 = e.mode >>> 12
      ∧ (apply_changes it e).mode &&& S_IFMT = e.mode &&& S_IFMT
      ∧ (emitted it e).uid = (apply_changes it e).uid
      ∧ (emitted it e).gid = (apply_changes it e).gid
      ∧ (emitted it e).mtime = (apply_changes it e).mtime
      ∧ (emitted it e).mode = (apply_changes it e).mode := by
  refine ⟨?_, ?_, ?_, ?_, ?_, apply_changes_mode_ifmt it e, ?_, ?_, ?_, ?_⟩
  · unfold apply_changes
    split_ifs <;> rfl
  · unfold apply_changes
    split_ifs <;> rfl
  · unfold apply_changes
    split_ifs <;> rfl
  · unfold apply_changes
    by_cases hm : it.cfg.flags &&& DIR_SCAN_KEEP_MODE ≠ 0
    · simp only [hm, not_true_eq_false, if_false, if_true]
      split_ifs <;> rfl
    · simp only [hm, not_false_eq_true, if_true, if_false]
      have := and_not_or_and_low e.mode it.cfg.def_mode 0o7777
      split_ifs <;> exact this
  · unfold apply_changes
    by_cases hm : it.cfg.flags &&& DIR_SCAN_KEEP_MODE ≠ 0
    · simp only [hm, not_true_eq_false, if_false]
      split_ifs <;> rfl
    · simp only [hm, not_false_eq_true, if_true]
      have := and_not_or_and_shift e.mode it.cfg.def_mode
      split_ifs <;> exact this
  · unfold emitted apply_changes
    split_ifs <;> rfl
  · unfold emitted apply_changes
    split_ifs <;> rfl
  · unfold emitted apply_changes
    split_ifs <;> rfl
  · unfold emitted apply_changes
    split_ifs <;> rfl

theorem cstr_no_nul (s : List Char) : ∀ c ∈ cstr s, c ≠ NUL := by
  intro c hc
  have := List.mem_takeWhile_imp hc
  simpa using this

theorem cstr_of_no_nul (s : List Char) (h : ∀ c ∈ s, c ≠ NUL) : cstr s = s := by
  unfold cstr
  rw [List.takeWhile_eq_self_iff]
  intro c hc
  simpa using h c hc

/-- The prefixed name holds no NUL byte: the C string in it is the whole of it. -/
theorem cstr_prefixed (p n : List Char) :
    cstr (cstr p ++ '/' :: cstr n) = cstr p ++ '/' :: cstr n := by
  apply cstr_of_no_nul
  intro c hc
  rcases List.mem_append.1 hc with hc | hc
  · exact cstr_no_nul p c hc
  · rcases List.mem_cons.1 hc with hc | hc
    · rw [hc]; decide
    · exact cstr_no_nul n c hc

/-- C6. Path prefixing: with a non-NULL, non-empty prefix `p` and a successful
reallocation, `expand_path` gives the entry back with the name
`p ++ "/" ++ n`, a C string of length `strlen p + 1 + strlen n` with every other
field as before; with a NULL or empty prefix it gives the entry back as it is,
without a reallocation. -/
theorem expand_path_prefixes {ω : Type} (E : Env ω) (it : dir_tree_iterator_t)
    (ent : sqfs_dir_entry_t) (w : ω) :
    (∀ p c w1, it.cfg.pfx = some p → cstr p ≠ [] →
        E.realloc w (strlen p + 1 + (strlen ent.name + 1)) = (some c, w1) →
        expand_path E it ent w
            = (some { ent with name := cstr p ++ '/' :: cstr ent.name }, w1)
          ∧ cstr (cstr p ++ '/' :: cstr ent.name) = cstr p ++ '/' :: cstr ent.name
          ∧ strlen (cstr p ++ '/' :: cstr ent.name) = strlen p + 1 + strlen ent.name)
      ∧ (it.cfg.pfx = none ∨ it.cfg.pfx.map cstr = some [] →
          expand_path E it ent w = (some ent, w)) := by
  constructor
  · intro p c w1 hp hne hr
    have hx : expand_path E it ent w
        = (some { ent with name := (cstr p ++ '/' :: cstr ent.name ++ [NUL]).dropLast }, w1) := by
      unfold expand_path
      rw [hp]
      have hh : p.headD NUL ≠ NUL := fun hh => hne ((headD_eq_NUL_iff p).1 hh)
      simp only [hh, ne_eq, not_false_eq_true, if_true, hr, expand_buffer]
    refine ⟨?_, cstr_prefixed p ent.name, ?_⟩
    · rw [hx]
      simp [← List.append_assoc, List.dropLast_concat]
    · unfold strlen
      rw [cstr_prefixed]
      simp
      omega
  · intro h
    unfold expand_path
    rcases h with h | h
    · rw [h]
    · cases hp : it.cfg.pfx with
      | none => rfl
      | some p =>
        rw [hp] at h
        have hc : cstr p = [] := by simpa using h
        have hh : p.headD NUL = NUL := (headD_eq_NUL_iff p).2 hc
        simp only [hh, ne_eq, not_true_eq_false, if_false]

/-- C6 with prefix `root` on the entry `file.txt`: the name becomes
`root/file.txt`, of length 13. -/
theorem expand_path_prefixes_witness :
    expand_path sim_env ⟨{ mk_cfg 0 with pfx := some "root".toList }, 0⟩
        (mk_entry "file.txt" S_IFREG) (mk_world [])
        = (some { mk_entry "file.txt" S_IFREG with
            name := cstr "root".toList ++ '/' :: cstr (mk_entry "file.txt" S_IFREG).name },
          mk_world [])
      ∧ cstr (cstr "root".toList ++ '/' :: cstr (mk_entry "file.txt" S_IFREG).name)
        = cstr "root".toList ++ '/' :: cstr (mk_entry "file.txt" S_IFREG).name
      ∧ strlen (cstr "root".toList ++ '/' :: cstr (mk_entry "file.txt" S_IFREG).name)
        = strlen "root".toList + 1 + strlen (mk_entry "file.txt" S_IFREG).name :=
  (expand_path_prefixes sim_env ⟨{ mk_cfg 0 with pfx := some "root".toList }, 0⟩
    (mk_entry "file.txt" S_IFREG) (mk_world [])).1 "root".toList '#' (mk_world [])
    rfl (by decide) rfl

/-! ## Pattern filtering -/

theorem strrchr_none (s : List Char) (c : Char) : strrchr s c = none ↔ c ∉ s := by
  induction s with
  | nil => simp [strrchr]
  | cons x xs ih =>
    unfold strrchr
    cases hr : strrchr xs c with
    | some p =>
      have : c ∈ xs := by
        by_contra hc
        rw [ih.2 hc] at hr
        exact absurd hr (by simp)
      simp [this]
    | none =>
      have hc : c ∉ xs := ih.1 hr
      by_cases hx : x = c
      · simp [hx]
      · have hx2 : ¬ c = x := fun h => hx h.symm
        simp [hx, hx2, hc]

theorem strrchr_some (s : List Char) (c : Char) (p : List Char) (h : strrchr s c = some p) :
    ∃ pre, s = pre ++ c :: p.drop 1 ∧ c ∉ p.drop 1 := by
  induction s with
  | nil => simp [strrchr] at h
  | cons x xs ih =>
    unfold strrchr at h
    cases hr : strrchr xs c with
    | some q =>
      rw [hr] at h
      simp only [Option.some.injEq] at h
      subst h
      obtain ⟨pre, hpre, hc⟩ := ih hr
      exact ⟨x :: pre, by rw [hpre]; rfl, hc⟩
    | none =>
      rw [hr] at h
      have hc : c ∉ xs := (strrchr_none xs c).1 hr
      by_cases hx : x = c
      · simp only [hx, if_true, Option.some.injEq] at h
        subst h
        exact ⟨[], by simp [hx], by simpa using hc⟩
      · simp [hx] at h

/-- The string `last_part` selects: the part of the C string after its last slash,
the whole name when there is no slash. -/
theorem last_part_spec (name : List Char) :
    ('/' ∉ cstr name ∧ last_part name = name)
      ∨ (∃ pre, cstr name = pre ++ '/' :: last_part name ∧ '/' ∉ last_part name) := by
  unfold last_part
  cases hr : strrchr (cstr name) '/' with
  | none => exact Or.inl ⟨(strrchr_none _ _).1 hr, rfl⟩
  | some p => exact Or.inr (strrchr_some _ _ p hr)

/-- C7. Pattern filtering: an entry handed out under a pattern is the prefixed
form of a pulled entry and passed the selected match.  With
`DIR_SCAN_MATCH_FULL_PATH` set the whole name was matched in pathname mode; with
it clear the part of the name after its last slash (the whole name when it has
none) was matched without restriction.  So `*.txt` accepts `a/b/notes.txt` by its
last part, `a/*/notes.txt` accepts `a/b/notes.txt` as a full path and `a*`
rejects it, a slash not being matched by a wildcard. -/
theorem pattern_filtering {ω : Type} (E : Env ω) (fuel : Nat) (it : dir_tree_iterator_t)
    (w : ω) (r : next_ret ω) (o : sqfs_dir_entry_t) (pat : List Char)
    (h : next E fuel it w = some r) (ho : r.out = some (some o))
    (hp : it.cfg.name_pattern = some pat) :
    (∃ e ∈ pulled r.calls, o.name = prefixed_name it.cfg.pfx e.name)
      ∧ (it.cfg.flags &&& DIR_SCAN_MATCH_FULL_PATH ≠ 0 → fnmatch pat o.name FNM_PATHNAME = 0)
      ∧ (it.cfg.flags &&& DIR_SCAN_MATCH_FULL_PATH = 0 →
          ∃ subject, fnmatch pat subject 0 = 0
            ∧ (('/' ∉ cstr o.name ∧ subject = o.name)
              ∨ (∃ pre, cstr o.name = pre ++ '/' :: subject ∧ '/' ∉ subject)))
      ∧ pattern_ret ⟨{ mk_cfg 0 with name_pattern := some "*.txt".toList }, 0⟩
          (mk_entry "a/b/notes.txt" S_IFREG) = 0
      ∧ last_part "a/b/notes.txt".toList = "notes.txt".toList
      ∧ pattern_ret ⟨{ mk_cfg DIR_SCAN_MATCH_FULL_PATH with
            name_pattern := some "a/*/notes.txt".toList }, 0⟩
          (mk_entry "a/b/notes.txt" S_IFREG) = 0
      ∧ pattern_ret ⟨{ mk_cfg DIR_SCAN_MATCH_FULL_PATH with
            name_pattern := some "a*".toList }, 0⟩
          (mk_entry "a/b/notes.txt" S_IFREG) = FNM_NOMATCH
      ∧ pattern_ret ⟨{ mk_cfg DIR_SCAN_MATCH_FULL_PATH with
            name_pattern := some "*.txt".toList }, 0⟩
          (mk_entry "a/b/notes.txt" S_IFREG) = FNM_NOMATCH := by
  obtain ⟨es, e, _, he, hc, hoe, _⟩ := next_emits E fuel it w r o h ho
  have hpr : pattern_ret it o = 0 := by
    unfold rejected pattern_rejects at he
    simp only [Bool.or_eq_false_iff, decide_eq_false_iff_not, not_not] at he
    rw [hoe]
    exact he.2
  unfold pattern_ret at hpr
  rw [hp] at hpr
  refine ⟨⟨e, ?_, ?_⟩, ?_, ?_, by decide, by decide, by decide, by decide, by decide⟩
  · have hpc := pulled_pass_calls it e []
    rw [List.append_nil] at hpc
    rw [hc, pulled_reject_trace, hpc]
    simp
  · rw [hoe]
    unfold emitted
    rw [apply_changes_name]
  · intro hf
    simpa [hf] using hpr
  · intro hf
    refine ⟨last_part o.name, by simpa [hf] using hpr, last_part_spec o.name⟩

/-- C7 on the listing `a/b/notes.txt`, `a/b/notes.md` under the pattern `*.txt`
matched on the last part: the call hands out the first entry. -/
theorem pattern_filtering_witness :
    ∃ r, next sim_env 1 ⟨{ mk_cfg 0xF00 with name_pattern := some "*.txt".toList }, 0⟩
        (mk_world [mk_entry "a/b/notes.txt" S_IFREG, mk_entry "a/b/notes.md" S_IFREG])
        = some r
      ∧ r.out = some (some (mk_entry "a/b/notes.txt" S_IFREG))
      ∧ ((mk_cfg 0xF00).flags &&& DIR_SCAN_MATCH_FULL_PATH = 0 →
          ∃ subject, fnmatch "*.txt".toList subject 0 = 0
            ∧ (('/' ∉ cstr (mk_entry "a/b/notes.txt" S_IFREG).name
                ∧ subject = (mk_entry "a/b/notes.txt" S_IFREG).name)
              ∨ (∃ pre, cstr (mk_entry "a/b/notes.txt" S_IFREG).name = pre ++ '/' :: subject
                ∧ '/' ∉ subject))) :=
  ⟨⟨0, some (some (mk_entry "a/b/notes.txt" S_IFREG)),
      ⟨{ mk_cfg 0xF00 with name_pattern := some "*.txt".toList }, 0⟩,
      ⟨[mk_entry "a/b/notes.md" S_IFREG], some (mk_entry "a/b/notes.txt" S_IFREG), 1, []⟩,
      [rec_call.next (rec_next_t.entry (mk_entry "a/b/notes.txt" S_IFREG))]⟩,
    rfl, rfl,
    (pattern_filtering sim_env 1
      ⟨{ mk_cfg 0xF00 with name_pattern := some "*.txt".toList }, 0⟩
      (mk_world [mk_entry "a/b/notes.txt" S_IFREG, mk_entry "a/b/notes.md" S_IFREG])
      ⟨0, some (some (mk_entry "a/b/notes.txt" S_IFREG)),
        ⟨{ mk_cfg 0xF00 with name_pattern := some "*.txt".toList }, 0⟩,
        ⟨[mk_entry "a/b/notes.md" S_IFREG], some (mk_entry "a/b/notes.txt" S_IFREG), 1, []⟩,
        [rec_call.next (rec_next_t.entry (mk_entry "a/b/notes.txt" S_IFREG))]⟩
      (mk_entry "a/b/notes.txt" S_IFREG) "*.txt".toList rfl rfl rfl).2.2.1⟩

/-! ## Pattern rejection and descent -/

/-- C9. Pattern rejection never suppresses descent: with `DIR_SCAN_NO_RECURSION`
clear, no pull of a directory that survives type and mount exclusion is
directly followed by `ignore_subdir`; an entry that fails the pattern is not
handed out; and, in a call that does not return `SQFS_ERROR_ALLOC`, the pull of
such a directory that fails the pattern is directly followed by the next pull.
The pass that pulls an entry which survives `should_skip`, gets through
`expand_path` and fails the pattern makes that one pull and no other call, and
goes back to `retry`. -/
theorem pattern_rejection_keeps_descent {ω : Type} (E : Env ω) (fuel : Nat)
    (it : dir_tree_iterator_t) (w : ω) (r : next_ret ω) (h : next E fuel it w = some r)
    (hnr : it.cfg.flags &&& DIR_SCAN_NO_RECURSION = 0) :
    after_pull (not_ignored it) r.calls = true
      ∧ (∀ d, pattern_rejects it d = true → r.out ≠ some (some (emitted it d)))
      ∧ (r.ret ≠ SQFS_ERROR_ALLOC → after_pull (pulls_on it) r.calls = true)
      ∧ (∀ (w0 w1 w2 : ω) (d e1 : sqfs_dir_entry_t),
          E.rec_next w0 = (rec_next_t.entry d, w1) → should_skip it d = false →
          expand_path E it d w1 = (some e1, w2) → pattern_rejects it d = true →
          next_pass E it w0
            = ⟨pass_t.again, it, w2, [rec_call.next (rec_next_t.entry d)]⟩) := by
  have htail : ∀ e, should_skip it e = false → (pass_calls it e).tail = [] := by
    intro e hsk
    rw [pass_calls_tail]
    simp [ignore_after, hsk, hnr]
  have hni : ∀ e u, starts_with_ignore u = false →
      not_ignored it e ((pass_calls it e).tail ++ u) = true := by
    intro e u hu
    unfold not_ignored
    by_cases hsk : should_skip it e = true
    · simp [hsk]
    · have hsk : should_skip it e = false := by simpa using hsk
      rw [htail e hsk]
      simp [hu]
  refine ⟨?_, ?_, fun ha => ?_, ?_⟩
  · refine next_after_pull E fuel it w r _ h
      (fun e _ u hu => hni e u (starts_with_ignore_of_next u hu)) (fun e _ => ?_)
      (fun _ e _ => by simp [not_ignored, starts_with_ignore])
    have := hni e [] rfl
    rwa [List.append_nil] at this
  · intro d hd ho
    obtain ⟨es, e, _, he, _, hoe, _⟩ := next_emits E fuel it w r (emitted it d) h ho
    have hpe : pattern_rejects it e = false := by
      unfold rejected at he
      simp only [Bool.or_eq_false_iff] at he
      exact he.2
    unfold pattern_rejects at hd hpe
    rw [hoe] at hd
    rw [hd] at hpe
    exact absurd hpe (by simp)
  · refine next_after_pull E fuel it w r _ h (fun e _ u hu => ?_) (fun e he => ?_)
      (fun hr => absurd hr ha)
    · unfold pulls_on
      by_cases hsk : should_skip it e = true
      · simp [hsk]
      · have hsk : should_skip it e = false := by simpa using hsk
        rw [htail e hsk]
        simp [hu]
    · have hpe : pattern_rejects it e = false := by
        unfold rejected at he
        simp only [Bool.or_eq_false_iff] at he
        exact he.2
      simp [pulls_on, hpe]
  · intro w0 w1 w2 d e1 hn hsk hx hp
    have hr : rejected it d = true := by
      simp [rejected, hp]
    have hi : ignore_after it d = false := by
      simp [ignore_after, hsk, hnr]
    rw [next_pass_keep E it w0 w1 w2 d e1 hn hsk hx]
    simp [hr, hi, pass_calls]

/-- C9 on the listing `sub`, `sub/a.txt` under the pattern `*.txt`: the call pulls
the directory, discards it without `ignore_subdir`, pulls the file below it and
hands that file out. -/
theorem pattern_rejection_keeps_descent_witness :
    ∃ r, next sim_env 2 ⟨{ mk_cfg 0xF00 with name_pattern := some "*.txt".toList }, 0⟩
        (mk_world [mk_entry "sub" S_IFDIR, mk_entry "sub/a.txt" S_IFREG]) = some r
      ∧ r.out = some (some (mk_entry "sub/a.txt" S_IFREG))
      ∧ pulled r.calls = [mk_entry "sub" S_IFDIR, mk_entry "sub/a.txt" S_IFREG]
      ∧ r.calls.length = 2
      ∧ (after_pull (not_ignored
            ⟨{ mk_cfg 0xF00 with name_pattern := some "*.txt".toList }, 0⟩) r.calls = true
        ∧ (∀ d, pattern_rejects
              ⟨{ mk_cfg 0xF00 with name_pattern := some "*.txt".toList }, 0⟩ d = true →
            r.out ≠ some (some (emitted
              ⟨{ mk_cfg 0xF00 with name_pattern := some "*.txt".toList }, 0⟩ d)))
        ∧ (r.ret ≠ SQFS_ERROR_ALLOC → after_pull (pulls_on
            ⟨{ mk_cfg 0xF00 with name_pattern := some "*.txt".toList }, 0⟩) r.calls = true)) :=
  ⟨⟨0, some (some (mk_entry "sub/a.txt" S_IFREG)),
      ⟨{ mk_cfg 0xF00 with name_pattern := some "*.txt".toList }, 0⟩,
      ⟨[], some (mk_entry "sub/a.txt" S_IFREG), 1, []⟩,
      [rec_call.next (rec_next_t.entry (mk_entry "sub" S_IFDIR)),
        rec_call.next (rec_next_t.entry (mk_entry "sub/a.txt" S_IFREG))]⟩,
    rfl, rfl, rfl, rfl,
    (fun t => ⟨t.1, t.2.1, t.2.2.1⟩)
      (pattern_rejection_keeps_descent sim_env 2
        ⟨{ mk_cfg 0xF00 with name_pattern := some "*.txt".toList }, 0⟩
        (mk_world [mk_entry "sub" S_IFDIR, mk_entry "sub/a.txt" S_IFREG]) _ rfl
        (by decide))⟩

/-! ## The pass-through policy -/

theorem expand_path_unprefixed {ω : Type} (E : Env ω) (it : dir_tree_iterator_t)
    (ent : sqfs_dir_entry_t) (w : ω)
    (h : it.cfg.pfx = none ∨ it.cfg.pfx.map cstr = some []) :
    expand_path E it ent w = (some ent, w) := by
  unfold expand_path
  rcases h with h | h
  · rw [h]
  · cases hp : it.cfg.pfx with
    | none => rfl
    | some p =>
      rw [hp] at h
      have hc : cstr p = [] := by simpa using h
      have hh : p.headD NUL = NUL := (headD_eq_NUL_iff p).2 hc
      simp only [hh, ne_eq, not_true_eq_false, if_false]

theorem emitted_unprefixed (it : dir_tree_iterator_t) (e : sqfs_dir_entry_t)
    (h : it.cfg.pfx = none ∨ it.cfg.pfx.map cstr = some []) :
    emitted it e = apply_changes it e := by
  have hn : prefixed_name it.cfg.pfx e.name = e.name := by
    unfold prefixed_name
    rcases h with h | h
    · rw [h]
    · cases hp : it.cfg.pfx with
      | none => rfl
      | some p =>
        rw [hp] at h
        have hc : cstr p = [] := by simpa using h
        simp [hc]
  unfold emitted
  rw [hn]

/-- Without exclusion bits `should_skip` skips mount points only. -/
theorem should_skip_no_bits (it : dir_tree_iterator_t) (e : sqfs_dir_entry_t)
    (hb : no_exclusion_bits it.cfg.flags = true) :
    should_skip it e = mount_skipped it e := by
  unfold no_exclusion_bits at hb
  simp only [Bool.and_eq_true, decide_eq_true_eq] at hb
  obtain ⟨⟨⟨⟨⟨⟨⟨h1, h2⟩, h3⟩, h4⟩, _⟩, h6⟩, h7⟩, _⟩ := hb
  unfold should_skip mount_skipped
  by_cases hc : it.cfg.flags &&& DIR_SCAN_ONE_FILESYSTEM ≠ 0
      ∧ e.flags &&& SQFS_DIR_ENTRY_FLAG_MOUNT_POINT ≠ 0
  · rw [if_pos hc]
    simp [hc]
  · rw [if_neg hc]
    have hd : decide (it.cfg.flags &&& DIR_SCAN_ONE_FILESYSTEM ≠ 0
        ∧ e.flags &&& SQFS_DIR_ENTRY_FLAG_MOUNT_POINT ≠ 0) = false := by simpa using hc
    rw [hd]
    split_ifs <;> simp [h1, h2, h3, h4, h6, h7]

/-- Under the pass-through policy an entry that is not a skipped mount point is
kept and its subtree is not given up. -/
theorem kept_pass_through (it : dir_tree_iterator_t) (e : sqfs_dir_entry_t)
    (hb : no_exclusion_bits it.cfg.flags = true) (hpat : it.cfg.name_pattern = none)
    (hm : mount_skipped it e = false) :
    rejected it e = false ∧ ignore_after it e = false := by
  have hsk : should_skip it e = false := by rw [should_skip_no_bits it e hb, hm]
  unfold no_exclusion_bits at hb
  simp only [Bool.and_eq_true, decide_eq_true_eq] at hb
  obtain ⟨⟨⟨⟨_, h5⟩, _⟩, _⟩, h8⟩ := hb
  constructor
  · unfold rejected pattern_rejects pattern_ret
    rw [hsk, hpat]
    simp [h5]
  · unfold ignore_after
    rw [hsk]
    simp [h8]

/-- A call of `next` under the pass-through policy without a prefix, when the
underlying iterator has an entry that is not a skipped mount point. -/
theorem next_pass_through {ω : Type} (E : Env ω) (fuel : Nat) (it : dir_tree_iterator_t)
    (w w1 : ω) (e : sqfs_dir_entry_t) (hst : it.state = 0)
    (hb : no_exclusion_bits it.cfg.flags = true) (hpat : it.cfg.name_pattern = none)
    (hpfx : it.cfg.pfx = none ∨ it.cfg.pfx.map cstr = some [])
    (hm : mount_skipped it e = false)
    (hn : E.rec_next w = (rec_next_t.entry e, w1)) :
    next E (fuel + 1) it w
      = some ⟨0, some (some (apply_changes it e)), it, w1, pass_calls it e⟩ := by
  obtain ⟨hr, hi⟩ := kept_pass_through it e hb hpat hm
  have hsk : should_skip it e = false := by rw [should_skip_no_bits it e hb, hm]
  rw [next_of_active E _ it w hst]
  unfold next_loop
  rw [next_pass_keep E it w w1 w1 e e hn hsk (expand_path_unprefixed E it e w1 hpfx)]
  simp only [hr, hi, Bool.false_eq_true, if_false, hst, emitted_unprefixed it e hpfx]

/-- A call of `next` when the underlying iterator reports a non-zero status. -/
theorem next_at_stop {ω : Type} (E : Env ω) (fuel : Nat) (it : dir_tree_iterator_t)
    (w w1 : ω) (s : Int) (hs : s ≠ 0) (hst : it.state = 0)
    (hn : E.rec_next w = (rec_next_t.stop s hs, w1)) :
    next E (fuel + 1) it w
      = some ⟨s, some none, { it with state := s }, w1,
          [rec_call.next (rec_next_t.stop s hs)]⟩ := by
  rw [next_of_active E _ it w hst]
  unfold next_loop
  rw [next_pass_stop E it w w1 s hs hn]

/-- C8, amended. Pass-through policy: with no `DIR_SCAN_NO_*` bit set, no pattern,
a NULL or empty prefix, and `DIR_SCAN_ONE_FILESYSTEM` clear or no entry flagged as
a mount point, whenever the underlying iterator produces the entries `es` and
then the status `s`, calling `next` until it returns a non-zero status hands out
exactly `apply_changes` of each entry of `es`, in the same order, and ends on
`s`, which becomes the sticky status. -/
theorem pass_through_policy {ω : Type} (E : Env ω) (n : Nat) (it : dir_tree_iterator_t) (w : ω)
    (es : List sqfs_dir_entry_t) (s : Int) (w2 : ω) (hst : it.state = 0)
    (hb : no_exclusion_bits it.cfg.flags = true) (hpat : it.cfg.name_pattern = none)
    (hpfx : it.cfg.pfx = none ∨ it.cfg.pfx.map cstr = some [])
    (hofs : it.cfg.flags &&& DIR_SCAN_ONE_FILESYSTEM = 0
      ∨ ∀ e ∈ es, e.flags &&& SQFS_DIR_ENTRY_FLAG_MOUNT_POINT = 0)
    (hd : rec_drain E n w = some (es, s, w2)) (fuel : Nat) :
    drain E (fuel + 1) n it w
        = some (es.map (apply_changes it), s, { it with state := s }, w2)
      ∧ (es.map (apply_changes it)).length = es.length ∧ s ≠ 0 := by
  induction n generalizing w es with
  | zero => simp [rec_drain] at hd
  | succ k ih =>
    unfold rec_drain at hd
    cases hn : E.rec_next w with
    | mk r0 w1 =>
      rw [hn] at hd
      cases r0 with
      | stop s1 hs1 =>
        simp only [Option.some.injEq, Prod.mk.injEq] at hd
        obtain ⟨h1, h2, h3⟩ := hd
        subst h1 h2 h3
        unfold drain
        rw [next_at_stop E fuel it w w1 s1 hs1 hst hn]
        simp [hs1]
      | entry e =>
        simp only [Option.map_eq_some'] at hd
        obtain ⟨⟨es1, s1, w3⟩, hd1, hd2⟩ := hd
        simp only [Prod.mk.injEq] at hd2
        obtain ⟨h1, h2, h3⟩ := hd2
        subst h1 h2 h3
        have hm : mount_skipped it e = false := by
          unfold mount_skipped
          rcases hofs with ho | ho
          · simp [ho]
          · simp [ho e (List.mem_cons_self e es1)]
        have hofs1 : it.cfg.flags &&& DIR_SCAN_ONE_FILESYSTEM = 0
            ∨ ∀ x ∈ es1, x.flags &&& SQFS_DIR_ENTRY_FLAG_MOUNT_POINT = 0 := by
          rcases hofs with ho | ho
          · exact Or.inl ho
          · exact Or.inr (fun x hx => ho x (List.mem_cons_of_mem e hx))
        obtain ⟨ih1, _, ih3⟩ := ih w1 es1 hofs1 hd1
        unfold drain
        rw [next_pass_through E fuel it w w1 e hst hb hpat hpfx hm hn]
        simp [ih1, ih3]

/-- C8, amended, on the listing `f`, `d` with every default applied (uid 7, gid 8,
mode 0700): the two entries are handed out normalised, in order, then status 1. -/
theorem pass_through_policy_witness :
    drain sim_env 1 3 ⟨⟨0, 7, 8, 0o700, 9, none, none⟩, 0⟩
        (mk_world [mk_entry "f" S_IFREG, mk_entry "d" S_IFDIR])
        = some ([mk_entry "f" S_IFREG, mk_entry "d" S_IFDIR].map
            (apply_changes ⟨⟨0, 7, 8, 0o700, 9, none, none⟩, 0⟩), 1,
            { (⟨⟨0, 7, 8, 0o700, 9, none, none⟩, 0⟩ : dir_tree_iterator_t) with state := 1 },
            ⟨[], none, 1, []⟩)
      ∧ ([mk_entry "f" S_IFREG, mk_entry "d" S_IFDIR].map
            (apply_changes ⟨⟨0, 7, 8, 0o700, 9, none, none⟩, 0⟩)).length
          = [mk_entry "f" S_IFREG, mk_entry "d" S_IFDIR].length
      ∧ (1 : Int) ≠ 0 :=
  pass_through_policy sim_env 3 ⟨⟨0, 7, 8, 0o700, 9, none, none⟩, 0⟩
    (mk_world [mk_entry "f" S_IFREG, mk_entry "d" S_IFDIR])
    [mk_entry "f" S_IFREG, mk_entry "d" S_IFDIR] 1 ⟨[], none, 1, []⟩
    rfl (by decide) rfl (Or.inl rfl) (Or.inl (by decide)) rfl 0

/-- C8 as stated fails twice.  With no `DIR_SCAN_NO_*` bit and no pattern but
`DIR_SCAN_ONE_FILESYSTEM` set, the listing `m` (a mount point), `f` is handed out
as `f` alone; with the prefix `p`, the listing `f` is handed out as `p/f`, which
is not `apply_changes` of `f`. -/
theorem pass_through_policy_counterexample :
    (no_exclusion_bits 0x1F00 = true
      ∧ (rec_drain sim_env 3 (mk_world [{ mk_entry "m" S_IFDIR with
            flags := SQFS_DIR_ENTRY_FLAG_MOUNT_POINT }, mk_entry "f" S_IFREG])).map
          (fun p => (p.1, p.2.1))
        = some ([{ mk_entry "m" S_IFDIR with flags := SQFS_DIR_ENTRY_FLAG_MOUNT_POINT },
            mk_entry "f" S_IFREG], 1)
      ∧ (drain sim_env 3 3 ⟨mk_cfg 0x1F00, 0⟩ (mk_world [{ mk_entry "m" S_IFDIR with
            flags := SQFS_DIR_ENTRY_FLAG_MOUNT_POINT }, mk_entry "f" S_IFREG])).map
          (fun p => (p.1, p.2.1))
        = some ([mk_entry "f" S_IFREG], 1))
    ∧ (no_exclusion_bits 0xF00 = true
      ∧ (rec_drain sim_env 2 (mk_world [mk_entry "f" S_IFREG])).map (fun p => (p.1, p.2.1))
        = some ([mk_entry "f" S_IFREG], 1)
      ∧ (drain sim_env 2 2 ⟨{ mk_cfg 0xF00 with pfx := some ['p'] }, 0⟩
          (mk_world [mk_entry "f" S_IFREG])).map (fun p => (p.1, p.2.1))
        = some ([mk_entry "p/f" S_IFREG], 1)
      ∧ [mk_entry "f" S_IFREG].map
          (apply_changes ⟨{ mk_cfg 0xF00 with pfx := some ['p'] }, 0⟩)
        = [mk_entry "f" S_IFREG]) := by
  decide

/-! ## Delegated operations -/

/-- C11. Delegated operations: with a non-zero sticky status each of `read_link`,
`open_subdir`, `open_file_ro` and `read_xattr` returns that status, produces no
result, makes no call on the underlying iterator and leaves the iterator and the
world as they are; with sticky status zero each makes exactly the one call of the
same operation on the underlying iterator, returns its status and its result, and
leaves the iterator, hence the zero status, unchanged. -/
theorem delegated_operations {ω : Type} (E : Env ω) (it : dir_tree_iterator_t) (w : ω) :
    (it.state ≠ 0 →
        read_link E it w = ⟨it.state, none, it, w, []⟩
        ∧ open_subdir E it w = ⟨it.state, none, it, w, []⟩
        ∧ open_file_ro E it w = ⟨it.state, none, it, w, []⟩
        ∧ read_xattr E it w = ⟨it.state, none, it, w, []⟩)
      ∧ (it.state = 0 →
        read_link E it w = ⟨(E.rec_read_link w).1.1, (E.rec_read_link w).1.2, it,
            (E.rec_read_link w).2, [rec_query.read_link]⟩
        ∧ open_subdir E it w = ⟨(E.rec_open_subdir w).1.1, (E.rec_open_subdir w).1.2, it,
            (E.rec_open_subdir w).2, [rec_query.open_subdir]⟩
        ∧ open_file_ro E it w = ⟨(E.rec_open_file_ro w).1.1, (E.rec_open_file_ro w).1.2, it,
            (E.rec_open_file_ro w).2, [rec_query.open_file_ro]⟩
        ∧ read_xattr E it w = ⟨(E.rec_read_xattr w).1.1, (E.rec_read_xattr w).1.2, it,
            (E.rec_read_xattr w).2, [rec_query.read_xattr]⟩
        ∧ (read_link E it w).it.state = 0 ∧ (open_subdir E it w).it.state = 0
        ∧ (open_file_ro E it w).it.state = 0 ∧ (read_xattr E it w).it.state = 0) := by
  constructor
  · intro h
    unfold read_link open_subdir open_file_ro read_xattr
    simp only [if_pos h, and_self]
  · intro h
    have hn : ¬ it.state ≠ 0 := by simpa using h
    unfold read_link open_subdir open_file_ro read_xattr
    rw [if_neg hn, if_neg hn, if_neg hn, if_neg hn]
    exact ⟨rfl, rfl, rfl, rfl, h, h, h, h⟩

/-- C11 after the pull of the entry `lnk`: the status is zero and `read_link` gives
the answer of the underlying iterator. -/
theorem delegated_operations_witness :
    read_link sim_env ⟨mk_cfg 0, 0⟩ ⟨[], some (mk_entry "lnk" S_IFLNK), 1, []⟩
        = ⟨0, some "lnk".toList, ⟨mk_cfg 0, 0⟩, ⟨[], some (mk_entry "lnk" S_IFLNK), 1, []⟩,
            [rec_query.read_link]⟩
      ∧ read_link sim_env ⟨mk_cfg 0, 1⟩ ⟨[], none, 1, []⟩
        = ⟨1, none, ⟨mk_cfg 0, 1⟩, ⟨[], none, 1, []⟩, []⟩ :=
  ⟨((delegated_operations sim_env ⟨mk_cfg 0, 0⟩
      ⟨[], some (mk_entry "lnk" S_IFLNK), 1, []⟩).2 rfl).1,
    ((delegated_operations sim_env ⟨mk_cfg 0, 1⟩ ⟨[], none, 1, []⟩).1 (by decide)).1⟩

/-- C12. `ignore_subdir` makes exactly one call of `ignore_subdir` on the
underlying iterator when the sticky status is zero, and makes no call and changes
nothing when it is non-zero; the iterator, hence the sticky status, is unchanged
in both cases. -/
theorem ignore_subdir_delegates {ω : Type} (E : Env ω) (it : dir_tree_iterator_t) (w : ω) :
    (it.state = 0 →
        ignore_subdir E it w = (it, E.rec_ignore_subdir w, [rec_call.ignore_subdir]))
      ∧ (it.state ≠ 0 → ignore_subdir E it w = (it, w, []))
      ∧ (ignore_subdir E it w).1 = it := by
  unfold ignore_subdir
  by_cases h : it.state = 0
  · simp [h]
  · simp [h]

/-- C12 on the simulated iterator after the pull of the directory `sub`: with
status zero the entries below `sub` are dropped, with status 1 nothing happens. -/
theorem ignore_subdir_delegates_witness :
    ignore_subdir sim_env ⟨mk_cfg 0, 0⟩
        ⟨[mk_entry "sub/a" S_IFREG, mk_entry "f" S_IFREG], some (mk_entry "sub" S_IFDIR), 1, []⟩
        = (⟨mk_cfg 0, 0⟩, ⟨[mk_entry "f" S_IFREG], some (mk_entry "sub" S_IFDIR), 1, []⟩,
            [rec_call.ignore_subdir])
      ∧ ignore_subdir sim_env ⟨mk_cfg 0, 1⟩
        ⟨[mk_entry "sub/a" S_IFREG], some (mk_entry "sub" S_IFDIR), 1, []⟩
        = (⟨mk_cfg 0, 1⟩, ⟨[mk_entry "sub/a" S_IFREG], some (mk_entry "sub" S_IFDIR), 1, []⟩, []) :=
  ⟨((ignore_subdir_delegates sim_env ⟨mk_cfg 0, 0⟩
      ⟨[mk_entry "sub/a" S_IFREG, mk_entry "f" S_IFREG], some (mk_entry "sub" S_IFDIR), 1,
        []⟩).1 rfl).trans rfl,
    (ignore_subdir_delegates sim_env ⟨mk_cfg 0, 1⟩
      ⟨[mk_entry "sub/a" S_IFREG], some (mk_entry "sub" S_IFDIR), 1, []⟩).2.1 (by decide)⟩

/-! ## Normalisation is idempotent, and what the rewrites leave alone -/

theorem and_not_or_and_idem (x d p : Nat) :
    and_not (and_not x p ||| (d &&& p)) p ||| (d &&& p) = and_not x p ||| (d &&& p) := by
  apply Nat.eq_of_testBit_eq
  intro i
  simp only [and_not, Nat.testBit_and, Nat.testBit_or, Nat.testBit_xor]
  cases x.testBit i <;> cases d.testBit i <;> cases p.testBit i <;> simp

/-- C13. Normalisation is idempotent: `apply_changes` applied twice gives the entry
that `apply_changes` gives when applied once; in particular the mode is the
same. -/
theorem apply_changes_idempotent (it : dir_tree_iterator_t) (e : sqfs_dir_entry_t) :
    apply_changes it (apply_changes it e) = apply_changes it e
      ∧ (apply_changes it (apply_changes it e)).mode = (apply_changes it e).mode := by
  have h : apply_changes it (apply_changes it e) = apply_changes it e := by
    unfold apply_changes
    have hi := and_not_or_and_idem e.mode it.cfg.def_mode 0o7777
    split_ifs <;> simp_all
  exact ⟨h, by rw [h]⟩

/-- C17. Frame of the two record rewrites: the entry `expand_path` gives back
differs from the entry it was given in the name only, and `apply_changes`
changes nothing but mtime, uid, gid and mode, of which it keeps the bits above
the low 12. -/
theorem rewrites_frame {ω : Type} (E : Env ω) (it : dir_tree_iterator_t)
    (ent : sqfs_dir_entry_t) (w : ω) :
    (∀ e1 w1, expand_path E it ent w = (some e1, w1) →
        e1 = { ent with name := e1.name } ∧ e1.size = ent.size ∧ e1.mtime = ent.mtime
          ∧ e1.dev = ent.dev ∧ e1.rdev = ent.rdev ∧ e1.uid = ent.uid ∧ e1.gid = ent.gid
          ∧ e1.mode = ent.mode ∧ e1.flags = ent.flags)
      ∧ apply_changes it ent
          = { ent with mtime := (apply_changes it ent).mtime, uid := (apply_changes it ent).uid,
                       gid := (apply_changes it ent).gid, mode := (apply_changes it ent).mode }
      ∧ (apply_changes it ent).name = ent.name ∧ (apply_changes it ent).flags = ent.flags
      ∧ (apply_changes it ent).size = ent.size ∧ (apply_changes it ent).dev = ent.dev
      ∧ (apply_changes it ent).rdev = ent.rdev
      ∧ (apply_changes it ent).mode >>> 12 = ent.mode >>> 12
      ∧ (apply_changes it ent).mode &&& S_IFMT = ent.mode &&& S_IFMT := by
  refine ⟨?_, ?_, apply_changes_name it ent, apply_changes_flags it ent, ?_, ?_, ?_, ?_,
    apply_changes_mode_ifmt it ent⟩
  · intro e1 w1 h
    have he := expand_path_some E it ent e1 w w1 h
    rw [he]
    exact ⟨rfl, rfl, rfl, rfl, rfl, rfl, rfl, rfl, rfl⟩
  · unfold apply_changes
    split_ifs <;> rfl
  · unfold apply_changes
    split_ifs <;> rfl
  · unfold apply_changes
    split_ifs <;> rfl
  · unfold apply_changes
    split_ifs <;> rfl
  · unfold apply_changes
    by_cases hm : it.cfg.flags &&& DIR_SCAN_KEEP_MODE ≠ 0
    · simp only [hm, not_true_eq_false, if_false]
      split_ifs <;> rfl
    · simp only [hm, not_false_eq_true, if_true]
      have := and_not_or_and_shift ent.mode it.cfg.def_mode
      split_ifs <;> exact this

/-- C17 with prefix `root` on an entry with every field set: only the name
changes. -/
theorem rewrites_frame_witness :
    (⟨1, 2, 3, 4, 5, 6, S_IFREG ||| 0o644, 2, "root/f".toList⟩ : sqfs_dir_entry_t)
        = { (⟨1, 2, 3, 4, 5, 6, S_IFREG ||| 0o644, 2, "f".toList⟩ : sqfs_dir_entry_t) with
            name := "root/f".toList }
      ∧ (1 : Nat) = 1 ∧ (2 : Int) = 2 ∧ (3 : Nat) = 3 ∧ (4 : Nat) = 4 ∧ (5 : Nat) = 5
      ∧ (6 : Nat) = 6 ∧ S_IFREG ||| 0o644 = S_IFREG ||| 0o644 ∧ (2 : Nat) = 2 :=
  (rewrites_frame sim_env ⟨{ mk_cfg 0 with pfx := some "root".toList }, 0⟩
    ⟨1, 2, 3, 4, 5, 6, S_IFREG ||| 0o644, 2, "f".toList⟩ (mk_world [])).1
    ⟨1, 2, 3, 4, 5, 6, S_IFREG ||| 0o644, 2, "root/f".toList⟩ (mk_world []) rfl

/-! ## One filesystem -/

theorem emitted_flags (it : dir_tree_iterator_t) (e : sqfs_dir_entry_t) :
    (emitted it e).flags = e.flags := by
  unfold emitted
  rw [apply_changes_flags]

/-- An entry that `should_skip` lets through under `DIR_SCAN_ONE_FILESYSTEM` is not
flagged as a mount point. -/
theorem not_mount_of_not_skipped (it : dir_tree_iterator_t) (e : sqfs_dir_entry_t)
    (hofs : it.cfg.flags &&& DIR_SCAN_ONE_FILESYSTEM ≠ 0) (h : should_skip it e = false) :
    e.flags &&& SQFS_DIR_ENTRY_FLAG_MOUNT_POINT = 0 := by
  by_contra hm
  have : should_skip it e = true := by
    unfold should_skip
    rw [if_pos ⟨hofs, hm⟩]
  rw [this] at h
  exact absurd h (by simp)

theorem should_skip_of_rejected_false (it : dir_tree_iterator_t) (e : sqfs_dir_entry_t)
    (h : rejected it e = false) : should_skip it e = false := by
  unfold rejected at h
  simp only [Bool.or_eq_false_iff] at h
  exact h.1.1

/-- C15. One-filesystem restriction: under `DIR_SCAN_ONE_FILESYSTEM` an entry
handed out by `next` is not flagged as a mount point and is not the emitted form
of a flagged entry, whatever its type; the pass that pulls a flagged entry makes
no other call than `ignore_subdir`, made when the entry is a directory, and goes
back to the pull; in every trace of `next` the pull of a flagged directory is
directly followed by `ignore_subdir`.  With `DIR_SCAN_ONE_FILESYSTEM` clear the
flags of the entry do not enter `should_skip`. -/
theorem one_filesystem {ω : Type} (E : Env ω) (fuel : Nat) (it : dir_tree_iterator_t)
    (w : ω) (r : next_ret ω) (h : next E fuel it w = some r) :
    (it.cfg.flags &&& DIR_SCAN_ONE_FILESYSTEM ≠ 0 →
        (∀ o, r.out = some (some o) → o.flags &&& SQFS_DIR_ENTRY_FLAG_MOUNT_POINT = 0)
        ∧ (∀ e, e.flags &&& SQFS_DIR_ENTRY_FLAG_MOUNT_POINT ≠ 0 →
            r.out ≠ some (some e) ∧ r.out ≠ some (some (emitted it e)))
        ∧ after_pull mount_dir_ignored r.calls = true
        ∧ (∀ (w0 w1 : ω) (d : sqfs_dir_entry_t),
            E.rec_next w0 = (rec_next_t.entry d, w1) →
            d.flags &&& SQFS_DIR_ENTRY_FLAG_MOUNT_POINT ≠ 0 →
            next_pass E it w0 = ⟨pass_t.again, it,
              if S_ISDIR d.mode then E.rec_ignore_subdir w1 else w1,
              rec_call.next (rec_next_t.entry d)
                :: (if S_ISDIR d.mode then [rec_call.ignore_subdir] else [])⟩))
      ∧ (it.cfg.flags &&& DIR_SCAN_ONE_FILESYSTEM = 0 →
          ∀ (e : sqfs_dir_entry_t) (fl : Nat),
            should_skip it { e with flags := fl } = should_skip it e) := by
  constructor
  · intro hofs
    have hout : ∀ o, r.out = some (some o) →
        o.flags &&& SQFS_DIR_ENTRY_FLAG_MOUNT_POINT = 0 := by
      intro o ho
      obtain ⟨es, e, _, he, _, hoe, _⟩ := next_emits E fuel it w r o h ho
      rw [hoe, emitted_flags]
      exact not_mount_of_not_skipped it e hofs (should_skip_of_rejected_false it e he)
    refine ⟨hout, ?_, ?_, ?_⟩
    · intro e hm
      constructor
      · intro ho
        exact hm (hout e ho)
      · intro ho
        have := hout _ ho
        rw [emitted_flags] at this
        exact hm this
    · have hskip : ∀ e, should_skip it e = false →
          decide (e.flags &&& SQFS_DIR_ENTRY_FLAG_MOUNT_POINT ≠ 0) = false := by
        intro e hsk
        simpa using not_mount_of_not_skipped it e hofs hsk
      have key : ∀ e u, mount_dir_ignored e ((pass_calls it e).tail ++ u) = true := by
        intro e u
        unfold mount_dir_ignored
        by_cases hsk : should_skip it e = true
        · by_cases hd : S_ISDIR e.mode = true
          · rw [pass_calls_tail]
            simp [ignore_after, hsk, hd, starts_with_ignore]
          · simp [hd]
        · have hsk : should_skip it e = false := by simpa using hsk
          rw [hskip e hsk]
          simp
      refine next_after_pull E fuel it w r _ h (fun e _ u _ => key e u) (fun e _ => ?_)
        (fun _ e hsk => ?_)
      · have := key e []
        rwa [List.append_nil] at this
      · unfold mount_dir_ignored
        rw [hskip e hsk]
        simp
    · intro w0 w1 d hn hm
      have hsk : should_skip it d = true := by
        unfold should_skip
        rw [if_pos ⟨hofs, hm⟩]
      rw [next_pass_skip E it w0 w1 d hn hsk]
      unfold pass_calls ignore_after
      simp [hsk]
  · intro hofs e fl
    unfold should_skip
    simp [hofs]

/-- C15 on the listing `m` (a directory flagged as a mount point), `m/x`, `f`
under `DIR_SCAN_ONE_FILESYSTEM`: the call pulls `m`, calls `ignore_subdir` and
hands out `f`. -/
theorem one_filesystem_witness :
    ∃ r, next sim_env 2 ⟨mk_cfg 0x1F00, 0⟩
        (mk_world [{ mk_entry "m" S_IFDIR with flags := SQFS_DIR_ENTRY_FLAG_MOUNT_POINT },
          mk_entry "m/x" S_IFREG, mk_entry "f" S_IFREG]) = some r
      ∧ r.out = some (some (mk_entry "f" S_IFREG))
      ∧ pulled r.calls = [{ mk_entry "m" S_IFDIR with
          flags := SQFS_DIR_ENTRY_FLAG_MOUNT_POINT }, mk_entry "f" S_IFREG]
      ∧ (∀ o, r.out = some (some o) → o.flags &&& SQFS_DIR_ENTRY_FLAG_MOUNT_POINT = 0)
      ∧ after_pull mount_dir_ignored r.calls = true :=
  ⟨⟨0, some (some (mk_entry "f" S_IFREG)), ⟨mk_cfg 0x1F00, 0⟩,
      ⟨[], some (mk_entry "f" S_IFREG), 1, []⟩,
      [rec_call.next (rec_next_t.entry { mk_entry "m" S_IFDIR with
          flags := SQFS_DIR_ENTRY_FLAG_MOUNT_POINT }), rec_call.ignore_subdir,
        rec_call.next (rec_next_t.entry (mk_entry "f" S_IFREG))]⟩,
    rfl, rfl, rfl,
    (fun t => ⟨t.1, t.2.2.1⟩)
      ((one_filesystem sim_env 2 ⟨mk_cfg 0x1F00, 0⟩
        (mk_world [{ mk_entry "m" S_IFDIR with flags := SQFS_DIR_ENTRY_FLAG_MOUNT_POINT },
          mk_entry "m/x" S_IFREG, mk_entry "f" S_IFREG]) _ rfl).1 (by decide))⟩

/-! ## Allocation failure -/

/-- With a non-empty prefix a failed reallocation makes `expand_path` give NULL. -/
theorem expand_path_fails {ω : Type} (E : Env ω) (it : dir_tree_iterator_t)
    (ent : sqfs_dir_entry_t) (w w1 : ω) (p : List Char) (hp : it.cfg.pfx = some p)
    (hne : cstr p ≠ [])
    (hr : E.realloc w (strlen p + 1 + (strlen ent.name + 1)) = (none, w1)) :
    expand_path E it ent w = (none, w1) := by
  unfold expand_path
  rw [hp]
  have hh : p.headD NUL ≠ NUL := fun hh => hne ((headD_eq_NUL_iff p).1 hh)
  simp only [hh, ne_eq, not_false_eq_true, if_true, hr]

/-- C16. Allocation failure during prefixing: with a non-empty prefix, when the
underlying iterator gives an entry that survives `should_skip` and the
reallocation of `expand_path` fails, the pass returns `SQFS_ERROR_ALLOC` with
NULL stored to `*out`, having made no call but the pull; a call of `next` that
starts there returns just that and leaves `SQFS_ERROR_ALLOC` as the sticky
status, and every later call returns `SQFS_ERROR_ALLOC` with no entry and no call
on the underlying iterator. -/
theorem alloc_failure {ω : Type} (E : Env ω) (it : dir_tree_iterator_t) (w w1 w2 : ω)
    (e : sqfs_dir_entry_t) (p : List Char) (hn : E.rec_next w = (rec_next_t.entry e, w1))
    (hsk : should_skip it e = false) (hp : it.cfg.pfx = some p) (hne : cstr p ≠ [])
    (hr : E.realloc w1 (strlen p + 1 + (strlen e.name + 1)) = (none, w2)) :
    next_pass E it w = ⟨pass_t.ret SQFS_ERROR_ALLOC none,
        { it with state := SQFS_ERROR_ALLOC }, w2, [rec_call.next (rec_next_t.entry e)]⟩
      ∧ (it.state = 0 → ∀ fuel : Nat, next E (fuel + 1) it w
          = some ⟨SQFS_ERROR_ALLOC, some none, { it with state := SQFS_ERROR_ALLOC }, w2,
              [rec_call.next (rec_next_t.entry e)]⟩)
      ∧ (∀ k fuel : Nat, later_call E fuel k { it with state := SQFS_ERROR_ALLOC } w2
          = some ⟨SQFS_ERROR_ALLOC, none, { it with state := SQFS_ERROR_ALLOC }, w2, []⟩) := by
  have hpass := next_pass_alloc E it w w1 w2 e hn hsk
    (expand_path_fails E it e w1 w2 p hp hne hr)
  refine ⟨hpass, fun hst fuel => ?_, fun k fuel => ?_⟩
  · rw [next_of_active E _ it w hst]
    unfold next_loop
    rw [hpass]
  · exact later_call_of_sticky E fuel k { it with state := SQFS_ERROR_ALLOC } w2
      (by simp [SQFS_ERROR_ALLOC])

/-- C16 with prefix `p` on the listing `f`, `g` and a heap whose next reallocation
fails: the call returns `SQFS_ERROR_ALLOC` with no entry, and so does the call
made after two more calls, without pulling `g`. -/
theorem alloc_failure_witness :
    next sim_env 1 ⟨{ mk_cfg 0xF00 with pfx := some ['p'] }, 0⟩
        ⟨[mk_entry "f" S_IFREG, mk_entry "g" S_IFREG], none, 1, [none]⟩
        = some ⟨SQFS_ERROR_ALLOC, some none,
            { (⟨{ mk_cfg 0xF00 with pfx := some ['p'] }, 0⟩ : dir_tree_iterator_t) with
              state := SQFS_ERROR_ALLOC },
            ⟨[mk_entry "g" S_IFREG], some (mk_entry "f" S_IFREG), 1, []⟩,
            [rec_call.next (rec_next_t.entry (mk_entry "f" S_IFREG))]⟩
      ∧ later_call sim_env 5 2
          { (⟨{ mk_cfg 0xF00 with pfx := some ['p'] }, 0⟩ : dir_tree_iterator_t) with
            state := SQFS_ERROR_ALLOC }
          ⟨[mk_entry "g" S_IFREG], some (mk_entry "f" S_IFREG), 1, []⟩
        = some ⟨SQFS_ERROR_ALLOC, none,
            { (⟨{ mk_cfg 0xF00 with pfx := some ['p'] }, 0⟩ : dir_tree_iterator_t) with
              state := SQFS_ERROR_ALLOC },
            ⟨[mk_entry "g" S_IFREG], some (mk_entry "f" S_IFREG), 1, []⟩, []⟩ :=
  (fun t => ⟨t.2.1 rfl 0, t.2.2 2 5⟩)
    (alloc_failure sim_env ⟨{ mk_cfg 0xF00 with pfx := some ['p'] }, 0⟩
      ⟨[mk_entry "f" S_IFREG, mk_entry "g" S_IFREG], none, 1, [none]⟩
      ⟨[mk_entry "g" S_IFREG], some (mk_entry "f" S_IFREG), 1, [none]⟩
      ⟨[mk_entry "g" S_IFREG], some (mk_entry "f" S_IFREG), 1, []⟩
      (mk_entry "f" S_IFREG) ['p'] rfl (by decide) rfl (by decide) rfl)

/-! ## The emitted stream -/

theorem pulled_append (a b : List rec_call) : pulled (a ++ b) = pulled a ++ pulled b := by
  induction a with
  | nil => rfl
  | cons c a ih =>
    cases c with
    | next r =>
      cases r with
      | entry e => simp [pulled, ih]
      | stop s h => simp [pulled, ih]
    | ignore_subdir => simp [pulled, ih]

theorem filter_rejected (it : dir_tree_iterator_t) (es : List sqfs_dir_entry_t)
    (h : ∀ e ∈ es, rejected it e = true) : es.filter (fun e => !rejected it e) = [] := by
  rw [List.filter_eq_nil_iff]
  intro e he
  simp [h e he]

/-- C18. Emitted stream is an order-preserving sub-stream: when `next` is called
until it returns a non-zero status, the entries handed out are, in order, the
images under prefixing and normalisation of a sublist of the entries pulled from
the underlying iterator by those calls; when the final status is not
`SQFS_ERROR_ALLOC` that sublist is made of exactly the pulled entries that the
policy does not discard. -/
theorem emitted_substream {ω : Type} (E : Env ω) (fuel n : Nat) (it : dir_tree_iterator_t)
    (w : ω) (os : List sqfs_dir_entry_t) (s : Int) (it2 : dir_tree_iterator_t) (w2 : ω)
    (h : drain E fuel n it w = some (os, s, it2, w2)) :
    ∃ tr kept, drain_calls E fuel n it w = some tr
      ∧ List.Sublist kept (pulled tr)
      ∧ os = kept.map (emitted it)
      ∧ os.length ≤ (pulled tr).length
      ∧ (s ≠ SQFS_ERROR_ALLOC → kept = (pulled tr).filter (fun e => !rejected it e)) := by
  induction n generalizing it w os with
  | zero => simp [drain] at h
  | succ k ih =>
    unfold drain at h
    unfold drain_calls
    cases hn : next E fuel it w with
    | none => simp [hn] at h
    | some r =>
      rw [hn] at h
      simp only at h ⊢
      by_cases hr : r.ret ≠ 0
      · rw [if_pos hr] at h
        rw [if_pos hr]
        simp only [Option.some.injEq, Prod.mk.injEq] at h
        obtain ⟨h1, h2, _, _⟩ := h
        subst h1
        refine ⟨r.calls, [], rfl, List.nil_sublist _, rfl, Nat.zero_le _, fun hs => ?_⟩
        rcases next_cases E fuel it w r hn with ⟨_, hrr⟩ | ⟨_, es, hes, hc⟩
        · rw [hrr]
          rfl
        · rcases hc with ⟨s1, hs1, c1, _⟩ | ⟨e, _, _, c2, _⟩ | ⟨e, _, _, c2, _⟩
          · rw [c1, pulled_reject_trace]
            simp only [pulled, List.append_nil]
            exact (filter_rejected it es hes).symm
          · rw [← h2, c2] at hs
            exact absurd rfl hs
          · exact absurd c2 hr
      · rw [if_neg hr] at h
        rw [if_neg hr]
        have hr0 : r.ret = 0 := by simpa using hr
        rcases next_cases E fuel it w r hn with ⟨h0, hrr⟩ | ⟨_, es, hes, hc⟩
        · rw [hrr] at hr0
          exact absurd hr0 h0
        · rcases hc with ⟨s1, hs1, _, c2, _⟩ | ⟨e, _, _, c2, _⟩ | ⟨e, he, c1, _, c3, c4⟩
          · rw [c2] at hr0
            exact absurd hr0 hs1
          · rw [c2] at hr0
            exact absurd hr0 (by simp [SQFS_ERROR_ALLOC])
          · simp only [Option.map_eq_some'] at h
            obtain ⟨⟨os1, s1, it3, w3⟩, hd, heq⟩ := h
            simp only [Prod.mk.injEq] at heq
            obtain ⟨h1, h2, h3, h4⟩ := heq
            subst h2 h3 h4
            rw [c4] at hd
            obtain ⟨tr1, kept1, ht1, hsub, hos, _, hfil⟩ := ih it r.world os1 hd
            rw [c4, ht1]
            have hp : pulled (r.calls ++ tr1) = es ++ e :: pulled tr1 := by
              have hpc := pulled_pass_calls it e []
              rw [List.append_nil] at hpc
              rw [pulled_append, c1, pulled_reject_trace, hpc]
              simp [pulled]
            have hsub2 : List.Sublist (e :: kept1) (pulled (r.calls ++ tr1)) := by
              rw [hp]
              exact (List.nil_sublist es).append (hsub.cons₂ e)
            have hos2 : os = (e :: kept1).map (emitted it) := by
              rw [← h1, c3, hos]
              rfl
            refine ⟨r.calls ++ tr1, e :: kept1, rfl, hsub2, hos2, ?_, fun hs => ?_⟩
            · rw [hos2, List.length_map]
              exact hsub2.length_le
            · rw [hp, List.filter_append, filter_rejected it es hes, List.nil_append,
                List.filter_cons]
              simp only [he, Bool.not_false, if_true]
              rw [hfil hs]

/-- C18 on the listing `lnk`, `f`, `d`, `d/g` under `DIR_SCAN_NO_SLINK` and
`DIR_SCAN_NO_DIR` with prefix `p`: four entries are pulled and the two files are
handed out, in order. -/
theorem emitted_substream_witness :
    ∃ tr kept, drain_calls sim_env 3 3
        ⟨{ mk_cfg 0xF12 with pfx := some ['p'] }, 0⟩
        (mk_world [mk_entry "lnk" S_IFLNK, mk_entry "f" S_IFREG, mk_entry "d" S_IFDIR,
          mk_entry "d/g" S_IFREG]) = some tr
      ∧ List.Sublist kept (pulled tr)
      ∧ [mk_entry "p/f" S_IFREG, mk_entry "p/d/g" S_IFREG]
          = kept.map (emitted ⟨{ mk_cfg 0xF12 with pfx := some ['p'] }, 0⟩)
      ∧ [mk_entry "p/f" S_IFREG, mk_entry "p/d/g" S_IFREG].length ≤ (pulled tr).length
      ∧ ((1 : Int) ≠ SQFS_ERROR_ALLOC → kept = (pulled tr).filter
          (fun e => !rejected ⟨{ mk_cfg 0xF12 with pfx := some ['p'] }, 0⟩ e)) :=
  emitted_substream sim_env 3 3 ⟨{ mk_cfg 0xF12 with pfx := some ['p'] }, 0⟩
    (mk_world [mk_entry "lnk" S_IFLNK, mk_entry "f" S_IFREG, mk_entry "d" S_IFDIR,
      mk_entry "d/g" S_IFREG])
    [mk_entry "p/f" S_IFREG, mk_entry "p/d/g" S_IFREG] 1
    { (⟨{ mk_cfg 0xF12 with pfx := some ['p'] }, 0⟩ : dir_tree_iterator_t) with state := 1 }
    ⟨[], none, 1, []⟩ (by decide)

/-! ## Termination -/

theorem pull_count_append (a b : List rec_call) :
    pull_count (a ++ b) = pull_count a + pull_count b := by
  induction a with
  | nil => simp [pull_count]
  | cons c a ih =>
    cases c with
    | next r => simp [pull_count, ih]; omega
    | ignore_subdir => simp [pull_count, ih]

theorem pull_count_pass_calls (it : dir_tree_iterator_t) (e : sqfs_dir_entry_t) :
    pull_count (pass_calls it e) = 1 := by
  unfold pass_calls
  by_cases h : ignore_after it e = true
  · simp [h, pull_count]
  · simp [h, pull_count]

/-- The world `expand_path` leaves is the world it was given or the one `realloc`
left. -/
theorem expand_path_world {ω : Type} (E : Env ω) (it : dir_tree_iterator_t)
    (ent : sqfs_dir_entry_t) (w : ω) :
    (expand_path E it ent w).2 = w ∨ ∃ n, (expand_path E it ent w).2 = (E.realloc w n).2 := by
  unfold expand_path
  cases hp : it.cfg.pfx with
  | none => exact Or.inl rfl
  | some p =>
    by_cases hh : p.headD NUL = NUL
    · left
      simp only [hh, ne_eq, not_true_eq_false, if_false]
    · right
      refine ⟨strlen p + 1 + (strlen ent.name + 1), ?_⟩
      simp only [hh, ne_eq, not_false_eq_true, if_true]
      cases hr : E.realloc w (strlen p + 1 + (strlen ent.name + 1)) with
      | mk r w2 =>
        cases r with
        | none => rfl
        | some c => rfl

/-- Over a finite stream, `rem w + 1` passes are enough for the loop of `next`,
which makes between one and `rem w + 1` pulls. -/
theorem next_loop_terminates {ω : Type} (E : Env ω) (rem : ω → Nat)
    (hfin : finite_stream E rem) (it : dir_tree_iterator_t) (fuel : Nat) (w : ω)
    (hf : rem w < fuel) :
    ∃ r, next_loop E fuel it w = some r
      ∧ 1 ≤ pull_count r.calls ∧ pull_count r.calls ≤ rem w + 1 := by
  obtain ⟨hent, _, hign, hall⟩ := hfin
  induction fuel generalizing w with
  | zero => exact absurd hf (Nat.not_lt_zero _)
  | succ n ih =>
    have again : ∀ (p : pass_ret ω), next_pass E it w = p → p.res = pass_t.again →
        p.it = it → pull_count p.calls = 1 → rem p.world + 1 ≤ rem w →
        ∃ r, next_loop E (n + 1) it w = some r
          ∧ 1 ≤ pull_count r.calls ∧ pull_count r.calls ≤ rem w + 1 := by
      intro p hp hres hit hcnt hrem
      obtain ⟨r1, hr1, hlo, hhi⟩ := ih p.world (by omega)
      refine ⟨{ r1 with calls := p.calls ++ r1.calls }, ?_, ?_, ?_⟩
      · unfold next_loop
        simp only [hp, hres, hit, hr1, Option.map_some']
      · simp only [pull_count_append, hcnt]
        omega
      · simp only [pull_count_append, hcnt]
        omega
    have fin : ∀ (p : pass_ret ω) (status : Int) (out : Option sqfs_dir_entry_t),
        next_pass E it w = p → p.res = pass_t.ret status out → pull_count p.calls = 1 →
        ∃ r, next_loop E (n + 1) it w = some r
          ∧ 1 ≤ pull_count r.calls ∧ pull_count r.calls ≤ rem w + 1 := by
      intro p status out hp hres hcnt
      refine ⟨⟨status, some out, p.it, p.world, p.calls⟩, ?_, ?_, ?_⟩
      · unfold next_loop
        simp only [hp, hres]
      · simp only [hcnt]
        omega
      · simp only [hcnt]
        omega
    cases hn : E.rec_next w with
    | mk r0 w1 =>
      cases r0 with
      | stop s hs =>
        exact fin _ s none (next_pass_stop E it w w1 s hs hn) rfl rfl
      | entry e =>
        have hw1 : rem w = rem w1 + 1 := hent w e w1 hn
        by_cases hsk : should_skip it e = true
        · refine again _ (next_pass_skip E it w w1 e hn hsk) rfl rfl
            (pull_count_pass_calls it e) ?_
          simp only
          split_ifs
          · have := hign w1
            omega
          · omega
        · have hsk : should_skip it e = false := by simpa using hsk
          have hw2 : rem (expand_path E it e w1).2 ≤ rem w1 := by
            rcases expand_path_world E it e w1 with h | ⟨m, h⟩
            · rw [h]
            · rw [h]
              exact hall w1 m
          cases hx : expand_path E it e w1 with
          | mk o w2 =>
            rw [hx] at hw2
            simp only at hw2
            cases o with
            | none =>
              exact fin _ SQFS_ERROR_ALLOC none
                (next_pass_alloc E it w w1 w2 e hn hsk hx) rfl rfl
            | some e1 =>
              have hk := next_pass_keep E it w w1 w2 e e1 hn hsk hx
              by_cases hr : rejected it e = true
              · refine again _ hk (by simp [hr]) rfl (pull_count_pass_calls it e) ?_
                simp only
                split_ifs
                · have := hign w2
                  omega
                · omega
              · have hr : rejected it e = false := by simpa using hr
                exact fin _ it.state (some (emitted it e)) hk (by simp [hr])
                  (pull_count_pass_calls it e)

/-- Pulling a finite stream to its end gives `rem w` entries. -/
theorem rec_drain_length {ω : Type} (E : Env ω) (rem : ω → Nat)
    (hfin : finite_stream E rem) (n : Nat) (w : ω) (hn : rem w < n) :
    ∃ es s w2, rec_drain E n w = some (es, s, w2) ∧ es.length = rem w := by
  obtain ⟨hent, hstop, _, _⟩ := hfin
  induction n generalizing w with
  | zero => exact absurd hn (Nat.not_lt_zero _)
  | succ k ih =>
    unfold rec_drain
    cases hr : E.rec_next w with
    | mk r0 w1 =>
      cases r0 with
      | stop s hs =>
        exact ⟨[], s, w1, rfl, (hstop w s hs w1 hr).symm⟩
      | entry e =>
        have hw1 := hent w e w1 hr
        obtain ⟨es, s, w2, hd, hl⟩ := ih w1 (by omega)
        refine ⟨e :: es, s, w2, ?_, ?_⟩
        · simp only [hd, Option.map_some']
        · simp [hl, hw1]

/-- C19. Termination of `next`: when the underlying iterator has a finite entry
stream, of which `rem w` entries remain in the world `w`, every call of `next`
returns.  With a non-zero sticky status it returns at once, with no pull; with
sticky status zero it returns within `rem w + 1` passes, after at least one and
at most `rem w + 1` pulls.  Pulling the underlying iterator alone to its end
gives exactly `rem w` entries. -/
theorem next_terminates {ω : Type} (E : Env ω) (rem : ω → Nat)
    (hfin : finite_stream E rem) (it : dir_tree_iterator_t) (w : ω) :
    (it.state ≠ 0 → ∀ fuel : Nat, ∃ r, next E fuel it w = some r ∧ pull_count r.calls = 0)
      ∧ (it.state = 0 → ∀ fuel : Nat, rem w < fuel →
          ∃ r, next E fuel it w = some r
            ∧ 1 ≤ pull_count r.calls ∧ pull_count r.calls ≤ rem w + 1)
      ∧ (∃ es s w2, rec_drain E (rem w + 1) w = some (es, s, w2) ∧ es.length = rem w) := by
  refine ⟨fun h fuel => ?_, fun h fuel hf => ?_, ?_⟩
  · exact ⟨_, next_of_sticky E fuel it w h, rfl⟩
  · rw [next_of_active E fuel it w h]
    exact next_loop_terminates E rem hfin it fuel w hf
  · exact rec_drain_length E rem hfin (rem w + 1) w (Nat.lt_succ_self _)

/-- The simulated iterator has a finite stream: the entries still listed. -/
theorem sim_finite_stream : finite_stream sim_env (fun w => w.pending.length) := by
  refine ⟨?_, ?_, ?_, ?_⟩
  · intro w e w1 h
    simp only [sim_env, sim_next] at h
    cases hp : w.pending with
    | nil =>
      rw [hp] at h
      simp only at h
      split_ifs at h <;> simp at h
    | cons x rest =>
      rw [hp] at h
      simp only [Prod.mk.injEq] at h
      rw [← h.2]
      simp [hp]
  · intro w s hs w1 h
    simp only [sim_env, sim_next] at h
    cases hp : w.pending with
    | nil => simp [hp]
    | cons x rest =>
      rw [hp] at h
      simp at h
  · intro w
    simp only [sim_env, sim_ignore_subdir]
    cases hl : w.last with
    | none => exact Nat.le_refl _
    | some d =>
      simp only
      split_ifs
      · exact (List.dropWhile_sublist _).length_le
      · exact Nat.le_refl _
  · intro w n
    simp only [sim_env, sim_realloc]
    cases hh : w.heap with
    | nil => exact Nat.le_refl _
    | cons r rest => exact Nat.le_refl _

/-- C19 on the listing `lnk`, `f`, `g` under `DIR_SCAN_NO_SLINK`: three entries
remain, four passes are enough, and the call makes between one and four pulls. -/
theorem next_terminates_witness :
    ∃ r, next sim_env 4 ⟨mk_cfg 0xF02, 0⟩
        (mk_world [mk_entry "lnk" S_IFLNK, mk_entry "f" S_IFREG, mk_entry "g" S_IFREG]) = some r
      ∧ 1 ≤ pull_count r.calls ∧ pull_count r.calls ≤ 3 + 1 :=
  (next_terminates sim_env (fun w => w.pending.length) sim_finite_stream
    ⟨mk_cfg 0xF02, 0⟩
    (mk_world [mk_entry "lnk" S_IFLNK, mk_entry "f" S_IFREG, mk_entry "g" S_IFREG])).2.1
    rfl 4 (by decide)

/-! ## The worked scenario -/

/-- A call of `next` on an iterator without a sticky status, when the underlying
iterator has an entry that `should_skip` skips: the call goes on from the world
the skip leaves. -/
theorem next_at_skipped {ω : Type} (E : Env ω) (fuel : Nat) (it : dir_tree_iterator_t)
    (w w1 : ω) (e : sqfs_dir_entry_t) (hst : it.state = 0)
    (hn : E.rec_next w = (rec_next_t.entry e, w1)) (hsk : should_skip it e = true) :
    next E (fuel + 1) it w
      = (next E fuel it (if S_ISDIR e.mode then E.rec_ignore_subdir w1 else w1)).map
          (fun r => { r with calls := pass_calls it e ++ r.calls }) := by
  rw [next_of_active E _ it w hst, next_of_active E _ it _ hst]
  conv_lhs => unfold next_loop
  rw [next_pass_skip E it w w1 e hn hsk]

/-- A regular file that is not a skipped mount point is skipped exactly under
`DIR_SCAN_NO_FILE`. -/
theorem should_skip_reg (it : dir_tree_iterator_t) (e : sqfs_dir_entry_t)
    (hm : e.mode &&& S_IFMT = S_IFREG) (hfl : e.flags &&& SQFS_DIR_ENTRY_FLAG_MOUNT_POINT = 0) :
    should_skip it e = decide (it.cfg.flags &&& DIR_SCAN_NO_FILE ≠ 0) := by
  unfold should_skip
  rw [hm]
  simp [hfl, S_IFREG, S_IFSOCK, S_IFLNK]

/-- A symlink that is not a skipped mount point is skipped exactly under
`DIR_SCAN_NO_SLINK`. -/
theorem should_skip_lnk (it : dir_tree_iterator_t) (e : sqfs_dir_entry_t)
    (hm : e.mode &&& S_IFMT = S_IFLNK) (hfl : e.flags &&& SQFS_DIR_ENTRY_FLAG_MOUNT_POINT = 0) :
    should_skip it e = decide (it.cfg.flags &&& DIR_SCAN_NO_SLINK ≠ 0) := by
  unfold should_skip
  rw [hm]
  simp [hfl, S_IFSOCK, S_IFLNK]

theorem pattern_rejects_none (it : dir_tree_iterator_t) (e : sqfs_dir_entry_t)
    (h : it.cfg.name_pattern = none) : pattern_rejects it e = false := by
  unfold pattern_rejects pattern_ret
  rw [h]
  simp

/-- Without a pattern, a regular file that is not a mount point is kept when
`DIR_SCAN_NO_FILE` is clear. -/
theorem kept_reg (it : dir_tree_iterator_t) (e : sqfs_dir_entry_t)
    (hm : e.mode &&& S_IFMT = S_IFREG) (hfl : e.flags &&& SQFS_DIR_ENTRY_FLAG_MOUNT_POINT = 0)
    (hf : it.cfg.flags &&& DIR_SCAN_NO_FILE = 0) (hp : it.cfg.name_pattern = none) :
    rejected it e = false := by
  have hnd : S_ISDIR e.mode = false := by
    unfold S_ISDIR
    rw [hm]
    decide
  unfold rejected
  rw [should_skip_reg it e hm hfl, pattern_rejects_none it e hp, hnd]
  simp [hf]

/-- Without a pattern, a directory that is not a mount point is kept when
`DIR_SCAN_NO_DIR` is clear, and its subtree is not given up when
`DIR_SCAN_NO_RECURSION` is clear. -/
theorem kept_dir (it : dir_tree_iterator_t) (e : sqfs_dir_entry_t)
    (hdir : S_ISDIR e.mode = true) (hfl : e.flags &&& SQFS_DIR_ENTRY_FLAG_MOUNT_POINT = 0)
    (hd : it.cfg.flags &&& DIR_SCAN_NO_DIR = 0)
    (hr : it.cfg.flags &&& DIR_SCAN_NO_RECURSION = 0) (hp : it.cfg.name_pattern = none) :
    rejected it e = false ∧ ignore_after it e = false := by
  have hms : mount_skipped it e = false := by
    unfold mount_skipped
    simp [hfl]
  constructor
  · rw [rejected_dir it e hdir, hms, pattern_rejects_none it e hp]
    simp [hd]
  · unfold ignore_after
    rw [should_skip_dir it e hdir, hms]
    simp [hr]

theorem ignore_after_not_dir (it : dir_tree_iterator_t) (e : sqfs_dir_entry_t)
    (h : S_ISDIR e.mode = false) : ignore_after it e = false := by
  unfold ignore_after
  rw [h]
  rfl

/-- A round of `drain` whose call of `next` returns 0. -/
theorem drain_cons {ω : Type} (E : Env ω) (fuel n : Nat) (it : dir_tree_iterator_t) (w : ω)
    (r : next_ret ω) (h : next E fuel it w = some r) (hr : r.ret = 0) :
    drain E fuel (n + 1) it w
      = (drain E fuel n r.it r.world).map (fun p => (r.out.join.toList ++ p.1, p.2)) := by
  conv_lhs => unfold drain
  simp only [h, hr, ne_eq, not_true_eq_false, if_false]

/-- The round of `drain` whose call of `next` returns a non-zero status. -/
theorem drain_end {ω : Type} (E : Env ω) (fuel n : Nat) (it : dir_tree_iterator_t) (w : ω)
    (r : next_ret ω) (h : next E fuel it w = some r) (hr : r.ret ≠ 0) :
    drain E fuel (n + 1) it w = some ([], r.ret, r.it, r.world) := by
  conv_lhs => unfold drain
  simp only [h, hr, ne_eq, not_false_eq_true, if_true]

theorem emitted_name (it : dir_tree_iterator_t) (e : sqfs_dir_entry_t) :
    (emitted it e).name = prefixed_name it.cfg.pfx e.name := by
  unfold emitted
  rw [apply_changes_name]

/-- C14. Worked scenario: under a policy that excludes symlinks, excludes neither
regular files nor directories, leaves `DIR_SCAN_NO_RECURSION` clear, has no
pattern and has the prefix `root`, whatever its other flags and defaults, the
listing `file.txt` (regular), `link` (symlink), `sub` (directory), `sub/a.txt`
(regular) followed by exhaustion is handed out as `root/file.txt`, `root/sub`,
`root/sub/a.txt`, in that order, and then exhaustion is reported. -/
theorem scenario_symlinks_excluded (flags du dg dm : Nat) (dt : Int)
    (hs : flags &&& DIR_SCAN_NO_SLINK ≠ 0) (hf : flags &&& DIR_SCAN_NO_FILE = 0)
    (hd : flags &&& DIR_SCAN_NO_DIR = 0) (hr : flags &&& DIR_SCAN_NO_RECURSION = 0) :
    (drain sim_env 2 4 ⟨⟨flags, du, dg, dm, dt, some "root".toList, none⟩, 0⟩
        (mk_world [mk_entry "file.txt" (S_IFREG ||| 0o644), mk_entry "link" (S_IFLNK ||| 0o777),
          mk_entry "sub" (S_IFDIR ||| 0o755), mk_entry "sub/a.txt" (S_IFREG ||| 0o600)])).map
        (fun p => (p.1.map (fun e => e.name), p.2.1))
      = some (["root/file.txt".toList, "root/sub".toList, "root/sub/a.txt".toList], 1) := by
  let it : dir_tree_iterator_t := ⟨⟨flags, du, dg, dm, dt, some "root".toList, none⟩, 0⟩
  have hk1 : rejected it (mk_entry "file.txt" (S_IFREG ||| 0o644)) = false :=
    kept_reg it _ (by decide) (by decide) hf rfl
  have hk4 : rejected it (mk_entry "sub/a.txt" (S_IFREG ||| 0o600)) = false :=
    kept_reg it _ (by decide) (by decide) hf rfl
  have hsub := kept_dir it (mk_entry "sub" (S_IFDIR ||| 0o755)) (by decide) (by decide)
    hd hr rfl
  have hlnk : should_skip it (mk_entry "link" (S_IFLNK ||| 0o777)) = true := by
    rw [should_skip_lnk it _ (by decide) (by decide)]
    simpa using hs
  have hi1 : ignore_after it (mk_entry "file.txt" (S_IFREG ||| 0o644)) = false :=
    ignore_after_not_dir it _ (by decide)
  have hi4 : ignore_after it (mk_entry "sub/a.txt" (S_IFREG ||| 0o600)) = false :=
    ignore_after_not_dir it _ (by decide)
  have n1 : next sim_env 2 it
      (mk_world [mk_entry "file.txt" (S_IFREG ||| 0o644), mk_entry "link" (S_IFLNK ||| 0o777),
        mk_entry "sub" (S_IFDIR ||| 0o755), mk_entry "sub/a.txt" (S_IFREG ||| 0o600)])
      = some ⟨0, some (some (emitted it (mk_entry "file.txt" (S_IFREG ||| 0o644)))), it,
          ⟨[mk_entry "link" (S_IFLNK ||| 0o777), mk_entry "sub" (S_IFDIR ||| 0o755),
            mk_entry "sub/a.txt" (S_IFREG ||| 0o600)],
            some (mk_entry "file.txt" (S_IFREG ||| 0o644)), 1, []⟩,
          pass_calls it (mk_entry "file.txt" (S_IFREG ||| 0o644))⟩ := by
    refine (next_at_kept sim_env 1 it
      (mk_world [mk_entry "file.txt" (S_IFREG ||| 0o644), mk_entry "link" (S_IFLNK ||| 0o777),
        mk_entry "sub" (S_IFDIR ||| 0o755), mk_entry "sub/a.txt" (S_IFREG ||| 0o600)])
      _ _ (mk_entry "file.txt" (S_IFREG ||| 0o644)) _ rfl rfl rfl hk1).trans ?_
    rw [hi1]
    rfl
  have n3 : next sim_env 1 it
      ⟨[mk_entry "sub" (S_IFDIR ||| 0o755), mk_entry "sub/a.txt" (S_IFREG ||| 0o600)],
        some (mk_entry "link" (S_IFLNK ||| 0o777)), 1, []⟩
      = some ⟨0, some (some (emitted it (mk_entry "sub" (S_IFDIR ||| 0o755)))), it,
          ⟨[mk_entry "sub/a.txt" (S_IFREG ||| 0o600)],
            some (mk_entry "sub" (S_IFDIR ||| 0o755)), 1, []⟩,
          pass_calls it (mk_entry "sub" (S_IFDIR ||| 0o755))⟩ := by
    refine (next_at_kept sim_env 0 it
      ⟨[mk_entry "sub" (S_IFDIR ||| 0o755), mk_entry "sub/a.txt" (S_IFREG ||| 0o600)],
        some (mk_entry "link" (S_IFLNK ||| 0o777)), 1, []⟩
      _ _ (mk_entry "sub" (S_IFDIR ||| 0o755)) _ rfl rfl rfl hsub.1).trans ?_
    rw [hsub.2]
    rfl
  have n2 : next sim_env 2 it
      ⟨[mk_entry "link" (S_IFLNK ||| 0o777), mk_entry "sub" (S_IFDIR ||| 0o755),
        mk_entry "sub/a.txt" (S_IFREG ||| 0o600)],
        some (mk_entry "file.txt" (S_IFREG ||| 0o644)), 1, []⟩
      = some ⟨0, some (some (emitted it (mk_entry "sub" (S_IFDIR ||| 0o755)))), it,
          ⟨[mk_entry "sub/a.txt" (S_IFREG ||| 0o600)],
            some (mk_entry "sub" (S_IFDIR ||| 0o755)), 1, []⟩,
          pass_calls it (mk_entry "link" (S_IFLNK ||| 0o777))
            ++ pass_calls it (mk_entry "sub" (S_IFDIR ||| 0o755))⟩ := by
    refine (next_at_skipped sim_env 1 it
      ⟨[mk_entry "link" (S_IFLNK ||| 0o777), mk_entry "sub" (S_IFDIR ||| 0o755),
        mk_entry "sub/a.txt" (S_IFREG ||| 0o600)],
        some (mk_entry "file.txt" (S_IFREG ||| 0o644)), 1, []⟩
      _ (mk_entry "link" (S_IFLNK ||| 0o777)) rfl rfl hlnk).trans ?_
    have hnd : S_ISDIR (mk_entry "link" (S_IFLNK ||| 0o777)).mode = false := by decide
    rw [hnd]
    exact congrArg (Option.map _) n3
  have n4 : next sim_env 2 it
      ⟨[mk_entry "sub/a.txt" (S_IFREG ||| 0o600)],
        some (mk_entry "sub" (S_IFDIR ||| 0o755)), 1, []⟩
      = some ⟨0, some (some (emitted it (mk_entry "sub/a.txt" (S_IFREG ||| 0o600)))), it,
          ⟨[], some (mk_entry "sub/a.txt" (S_IFREG ||| 0o600)), 1, []⟩,
          pass_calls it (mk_entry "sub/a.txt" (S_IFREG ||| 0o600))⟩ := by
    refine (next_at_kept sim_env 1 it
      ⟨[mk_entry "sub/a.txt" (S_IFREG ||| 0o600)],
        some (mk_entry "sub" (S_IFDIR ||| 0o755)), 1, []⟩
      _ _ (mk_entry "sub/a.txt" (S_IFREG ||| 0o600)) _ rfl rfl rfl hk4).trans ?_
    rw [hi4]
    rfl
  have n5 := next_at_stop sim_env 1 it
    ⟨[], some (mk_entry "sub/a.txt" (S_IFREG ||| 0o600)), 1, []⟩ _ 1 (by decide) rfl rfl
  rw [drain_cons sim_env 2 3 it _ _ n1 rfl, drain_cons sim_env 2 2 it _ _ n2 rfl,
    drain_cons sim_env 2 1 it _ _ n4 rfl, drain_end sim_env 2 0 it _ _ n5 (by simp)]
  have e1 : (emitted it (mk_entry "file.txt" (S_IFREG ||| 0o644))).name
      = "root/file.txt".toList := by rw [emitted_name]; rfl
  have e3 : (emitted it (mk_entry "sub" (S_IFDIR ||| 0o755))).name
      = "root/sub".toList := by rw [emitted_name]; rfl
  have e4 : (emitted it (mk_entry "sub/a.txt" (S_IFREG ||| 0o600))).name
      = "root/sub/a.txt".toList := by rw [emitted_name]; rfl
  simp [Option.join, e1, e3, e4]

/-- C14 with the flags `DIR_SCAN_NO_SLINK` alone and every default zero. -/
theorem scenario_symlinks_excluded_witness :
    (drain sim_env 2 4 ⟨⟨DIR_SCAN_NO_SLINK, 0, 0, 0, 0, some "root".toList, none⟩, 0⟩
        (mk_world [mk_entry "file.txt" (S_IFREG ||| 0o644), mk_entry "link" (S_IFLNK ||| 0o777),
          mk_entry "sub" (S_IFDIR ||| 0o755), mk_entry "sub/a.txt" (S_IFREG ||| 0o600)])).map
        (fun p => (p.1.map (fun e => e.name), p.2.1))
      = some (["root/file.txt".toList, "root/sub".toList, "root/sub/a.txt".toList], 1) :=
  scenario_symlinks_excluded DIR_SCAN_NO_SLINK 0 0 0 0 (by decide) (by decide) (by decide)
    (by decide)

/-! ## Validation of the defaults -/

/-- A value within `0 .. hi` is stored as it is by a store of `k` bits when `hi`
fits `k` bits. -/
theorem toNat_mod_of_range (v hi : Int) (k : Nat) (h0 : 0 ≤ v) (h1 : v ≤ hi)
    (hk : hi < 2 ^ k) : v.toNat % 2 ^ k = v.toNat := by
  apply Nat.mod_eq_of_lt
  have h2 : ((v.toNat : Nat) : Int) = v := Int.toNat_of_nonneg h0
  have h3 : ((v.toNat : Nat) : Int) < ((2 ^ k : Nat) : Int) := by
    rw [h2]
    push_cast
    omega
  exact_mod_cast h3

/-- What the `switch` does with a `uid`, a `gid` and a `mode` suboption. -/
theorem set_default_cases (L : libc_t) (sb : fstree_defaults_t) (value : List Char) :
    set_default L sb DEF_UID value
        = (if 0 ≤ (L.strtol value).1 ∧ (L.strtol value).1 ≤ INT32_MAX then
            some { sb with uid := (L.strtol value).1.toNat } else none)
      ∧ set_default L sb DEF_GID value
        = (if 0 ≤ (L.strtol value).1 ∧ (L.strtol value).1 ≤ INT32_MAX then
            some { sb with gid := (L.strtol value).1.toNat } else none)
      ∧ set_default L sb DEF_MODE value
        = (if 0 ≤ (L.strtol value).1 ∧ (L.strtol value).1 ≤ 0o7777 then
            some { sb with mode := S_IFDIR ||| (L.strtol value).1.toNat } else none) := by
  refine ⟨?_, ?_, ?_⟩
  · unfold set_default
    simp only [DEF_UID, if_true]
    by_cases h0 : (L.strtol value).1 < 0
    · have : ¬ (0 ≤ (L.strtol value).1 ∧ (L.strtol value).1 ≤ INT32_MAX) := by omega
      rw [if_pos h0, if_neg this]
    · by_cases h1 : (L.strtol value).1 > INT32_MAX
      · have : ¬ (0 ≤ (L.strtol value).1 ∧ (L.strtol value).1 ≤ INT32_MAX) := by omega
        rw [if_neg h0, if_pos h1, if_neg this]
      · have : 0 ≤ (L.strtol value).1 ∧ (L.strtol value).1 ≤ INT32_MAX := by omega
        rw [if_neg h0, if_neg h1, if_pos this,
          toNat_mod_of_range _ INT32_MAX 32 this.1 this.2 (by decide)]
  · unfold set_default
    simp only [DEF_UID, DEF_GID, if_true]
    rw [if_neg (by decide)]
    by_cases h0 : (L.strtol value).1 < 0
    · have : ¬ (0 ≤ (L.strtol value).1 ∧ (L.strtol value).1 ≤ INT32_MAX) := by omega
      rw [if_pos h0, if_neg this]
    · by_cases h1 : (L.strtol value).1 > INT32_MAX
      · have : ¬ (0 ≤ (L.strtol value).1 ∧ (L.strtol value).1 ≤ INT32_MAX) := by omega
        rw [if_neg h0, if_pos h1, if_neg this]
      · have : 0 ≤ (L.strtol value).1 ∧ (L.strtol value).1 ≤ INT32_MAX := by omega
        rw [if_neg h0, if_neg h1, if_pos this,
          toNat_mod_of_range _ INT32_MAX 32 this.1 this.2 (by decide)]
  · unfold set_default
    simp only [DEF_UID, DEF_GID, DEF_MODE, if_true]
    rw [if_neg (by decide), if_neg (by decide)]
    by_cases h0 : (L.strtol value).1 < 0
    · have : ¬ (0 ≤ (L.strtol value).1 ∧ (L.strtol value).1 ≤ 0o7777) := by omega
      rw [if_pos h0, if_neg this]
    · by_cases h1 : (L.strtol value).1 > 0o7777
      · have : ¬ (0 ≤ (L.strtol value).1 ∧ (L.strtol value).1 ≤ 0o7777) := by omega
        rw [if_neg h0, if_pos h1, if_neg this]
      · have : 0 ≤ (L.strtol value).1 ∧ (L.strtol value).1 ≤ 0o7777 := by omega
        rw [if_neg h0, if_neg h1, if_pos this,
          toNat_mod_of_range _ 0o7777 16 this.1 this.2 (by decide)]

/-- One round of the loop on a suboption that has a value. -/
theorem parse_loop_step (L : libc_t) (n : Nat) (sb : fstree_defaults_t) (s : List Char)
    (i : Int) (value rest : List Char) (hs : s.headD NUL ≠ NUL)
    (hg : L.getsubopt s = ((i, some value), rest)) :
    parse_loop L (n + 1) sb s
      = (match set_default L sb i value with
          | none => some (-1, sb)
          | some sb1 => parse_loop L n sb1 rest) := by
  conv_lhs => unfold parse_loop
  rw [if_neg hs, hg]

theorem parse_loop_empty (L : libc_t) (n : Nat) (sb : fstree_defaults_t) (s : List Char)
    (hs : s.headD NUL = NUL) : parse_loop L n sb s = some (0, sb) := by
  cases n with
  | zero =>
    unfold parse_loop
    rw [if_pos hs]
  | succ k =>
    unfold parse_loop
    rw [if_pos hs]

/-- The function on a string that holds one suboption with a value. -/
theorem parse_single (L : libc_t) (fuel : Nat) (s : List Char) (i : Int)
    (value rest : List Char) (hs : s.headD NUL ≠ NUL)
    (hg : L.getsubopt s = ((i, some value), rest)) (hrest : rest.headD NUL = NUL) :
    parse_fstree_defaults L (fuel + 1) (some s)
      = (match set_default L ⟨0, 0, 0, S_IFDIR ||| 0o755⟩ i value with
          | none => some (-1, ⟨0, 0, 0, S_IFDIR ||| 0o755⟩)
          | some sb1 => some (0, sb1)) := by
  unfold parse_fstree_defaults
  simp only
  rw [parse_loop_step L fuel _ s i value rest hs hg]
  cases set_default L ⟨0, 0, 0, S_IFDIR ||| 0o755⟩ i value with
  | none => rfl
  | some sb1 => exact parse_loop_empty L fuel sb1 rest hrest

/-- C20. Defaults validation in `parse_fstree_defaults`: with a NULL or empty
string it returns 0 with uid 0, gid 0, mtime 0 and mode `S_IFDIR | 0755`.  With
`v` the number `strtol` reads from the value, the `switch` accepts a `mode`
suboption exactly when `0 ≤ v ≤ 07777` and then stores `S_IFDIR | v`, and accepts
a `uid` or `gid` suboption exactly when `0 ≤ v ≤ INT32_MAX` and then stores `v`.
In the loop a suboption that the `switch` rejects makes the function return -1,
and an accepted one lets it go on with the rest of the string; so on a string of
one suboption the function returns 0 with the value stored when the value is
accepted and -1 when it is rejected. -/
theorem parse_fstree_defaults_validation (L : libc_t) :
    (∀ fuel : Nat, parse_fstree_defaults L fuel none
        = some (0, ⟨0, 0, 0, S_IFDIR ||| 0o755⟩))
      ∧ (∀ (fuel : Nat) (s : List Char), s.headD NUL = NUL →
          parse_fstree_defaults L fuel (some s) = some (0, ⟨0, 0, 0, S_IFDIR ||| 0o755⟩))
      ∧ (∀ (sb : fstree_defaults_t) (value : List Char),
          set_default L sb DEF_MODE value
            = (if 0 ≤ (L.strtol value).1 ∧ (L.strtol value).1 ≤ 0o7777 then
                some { sb with mode := S_IFDIR ||| (L.strtol value).1.toNat } else none)
          ∧ set_default L sb DEF_UID value
            = (if 0 ≤ (L.strtol value).1 ∧ (L.strtol value).1 ≤ INT32_MAX then
                some { sb with uid := (L.strtol value).1.toNat } else none)
          ∧ set_default L sb DEF_GID value
            = (if 0 ≤ (L.strtol value).1 ∧ (L.strtol value).1 ≤ INT32_MAX then
                some { sb with gid := (L.strtol value).1.toNat } else none))
      ∧ (∀ (n : Nat) (sb : fstree_defaults_t) (s : List Char) (i : Int)
          (value rest : List Char), s.headD NUL ≠ NUL →
          L.getsubopt s = ((i, some value), rest) →
          (set_default L sb i value = none → parse_loop L (n + 1) sb s = some (-1, sb))
          ∧ (∀ sb1, set_default L sb i value = some sb1 →
              parse_loop L (n + 1) sb s = parse_loop L n sb1 rest))
      ∧ (∀ (fuel : Nat) (s value rest : List Char), s.headD NUL ≠ NUL →
          rest.headD NUL = NUL →
          (L.getsubopt s = ((DEF_MODE, some value), rest) →
            parse_fstree_defaults L (fuel + 1) (some s)
              = (if 0 ≤ (L.strtol value).1 ∧ (L.strtol value).1 ≤ 0o7777 then
                  some (0, ⟨0, 0, 0, S_IFDIR ||| (L.strtol value).1.toNat⟩)
                else some (-1, ⟨0, 0, 0, S_IFDIR ||| 0o755⟩)))
          ∧ (L.getsubopt s = ((DEF_UID, some value), rest) →
            parse_fstree_defaults L (fuel + 1) (some s)
              = (if 0 ≤ (L.strtol value).1 ∧ (L.strtol value).1 ≤ INT32_MAX then
                  some (0, ⟨(L.strtol value).1.toNat, 0, 0, S_IFDIR ||| 0o755⟩)
                else some (-1, ⟨0, 0, 0, S_IFDIR ||| 0o755⟩)))
          ∧ (L.getsubopt s = ((DEF_GID, some value), rest) →
            parse_fstree_defaults L (fuel + 1) (some s)
              = (if 0 ≤ (L.strtol value).1 ∧ (L.strtol value).1 ≤ INT32_MAX then
                  some (0, ⟨0, (L.strtol value).1.toNat, 0, S_IFDIR ||| 0o755⟩)
                else some (-1, ⟨0, 0, 0, S_IFDIR ||| 0o755⟩)))) := by
  refine ⟨fun fuel => rfl, fun fuel s hs => ?_, fun sb value => ?_, ?_, ?_⟩
  · unfold parse_fstree_defaults
    exact parse_loop_empty L fuel _ s hs
  · obtain ⟨h1, h2, h3⟩ := set_default_cases L sb value
    exact ⟨h3, h1, h2⟩
  · intro n sb s i value rest hs hg
    have hstep := parse_loop_step L n sb s i value rest hs hg
    constructor
    · intro hnone
      rw [hstep, hnone]
    · intro sb1 hsome
      rw [hstep, hsome]
  · intro fuel s value rest hs hrest
    refine ⟨fun hg => ?_, fun hg => ?_, fun hg => ?_⟩
    · rw [parse_single L fuel s _ value rest hs hg hrest,
        (set_default_cases L _ value).2.2]
      split_ifs <;> rfl
    · rw [parse_single L fuel s _ value rest hs hg hrest,
        (set_default_cases L _ value).1]
      split_ifs <;> rfl
    · rw [parse_single L fuel s _ value rest hs hg hrest,
        (set_default_cases L _ value).2.1]
      split_ifs <;> rfl

/-- C20 on the strings `mode=0755` and `uid=2147483648`: the first is accepted and
stores `S_IFDIR | 0755`, the second is rejected with -1. -/
theorem parse_fstree_defaults_validation_witness :
    parse_fstree_defaults sim_libc 1 (some "mode=0755".toList)
        = some (0, ⟨0, 0, 0, S_IFDIR ||| 0o755⟩)
      ∧ parse_fstree_defaults sim_libc 1 (some "uid=2147483648".toList)
        = some (-1, ⟨0, 0, 0, S_IFDIR ||| 0o755⟩) :=
  ⟨((((parse_fstree_defaults_validation sim_libc).2.2.2.2 0 "mode=0755".toList
        "0755".toList [] (by decide) (by decide)).1 (by decide)).trans (by decide)),
    ((((parse_fstree_defaults_validation sim_libc).2.2.2.2 0 "uid=2147483648".toList
        "2147483648".toList [] (by decide) (by decide)).2.1 (by decide)).trans (by decide))⟩

end DirTree
